import Mathlib

/-!
# The system-call layer of `userprog/syscall.c`

A shallow embedding of the system-call boundary: the address validators
(`ptrValidate`, `strValidate`, `BufferValidate`, `get_kth_ptr`), the per-process
descriptor table (`get_from_fd`, `open`, `close`, ...) and the trap dispatcher
(`syscall_handler`).

Conventions of the embedding.

* The target is 32-bit: a pointer is a natural number, and pointer arithmetic
  is taken modulo `2 ^ 32` (`ptr_add`, `ptr_index`).
* A C `int` is an `Int`; a word read from user memory is converted with
  `to_int`, and `++` on an `int` is the 32-bit machine operation `int_incr`,
  which wraps from `2 ^ 31 - 1` to `- 2 ^ 31`.
* The code runs in the state monad `Sys` over `World`; `thread_exit` and
  `shutdown_power_off` do not return and end the run with `Outcome.exited` and
  `Outcome.halted`; a store or a dereference in kernel code that does not go
  to a valid address ends it with `Outcome.faulted`.
* The subsystems behind the layer (file system, loader, console, keyboard) are
  the fields of `Kernel`; every call to one of them is appended to `World.log`.
-/

namespace Pintos

/-! ## Data model -/

/-- The `struct file_descriptor` of `syscall.h`: an open file and its handle. -/
structure file_descriptor where
  _file : Nat
  fd : Int
deriving DecidableEq, Repr

/-- A child of the running thread as `exec` sees it through `child_list`. -/
structure child where
  tid : Int
deriving DecidableEq, Repr

/-- The fields of `struct thread` that `syscall.c` uses.  `pagedir` is the page
directory: `pagedir a` is the kernel address user address `a` is mapped to, if
any (the result of `pagedir_get_page`). -/
structure thread where
  exit_status : Int
  next_fd : Int
  open_fd_list : List file_descriptor
  child_list : List child
  pagedir : Nat → Option Nat

/-- The `struct intr_frame` fields the handler touches. -/
structure intr_frame where
  esp : Nat
  eax : Nat

/-- A call made by the layer to one of its collaborators. -/
inductive Event where
  | process_execute (cmd_args : Nat)
  | sema_down (tid : Int)
  | process_wait (tid : Int)
  | lock_acquire
  | lock_release
  | filesys_create (filename : Nat) (initial_size : Nat)
  | filesys_remove (filename : Nat)
  | filesys_open (filename : Nat)
  | file_length (file : Nat)
  | file_read (file : Nat) (buffer : Nat) (size : Nat)
  | file_write (file : Nat) (buffer : Nat) (size : Nat)
  | file_seek (file : Nat) (position : Nat)
  | file_tell (file : Nat)
  | file_close (file : Nat)
  | input_getc
  | putbuf (buffer : Nat) (size : Nat)
  | malloc
  | free
deriving DecidableEq, Repr

/-- What the code can see and change: user memory (one byte per address), the
running thread, the trap frame, and the collaborator calls made so far. -/
structure World where
  mem : Nat → Nat
  thr : thread
  frame : intr_frame
  log : List Event

/-- How a run of kernel code ends: it returns a value, or the process is
terminated (`thread_exit`), or the machine is switched off, or the kernel code
takes a page fault (a store to an address that is not valid, a dereference of a
null pointer). -/
inductive Outcome (α : Type) where
  | ret (a : α) (w : World)
  | exited (w : World)
  | halted (w : World)
  | faulted (w : World)

/-- True when the run returned to its caller. -/
def Outcome.isRet {α : Type} : Outcome α → Bool
  | .ret _ _ => true
  | _ => false

/-- The world in which the run ended. -/
def Outcome.world {α : Type} : Outcome α → World
  | .ret _ w => w
  | .exited w => w
  | .halted w => w
  | .faulted w => w

/-- Kernel code: a state transformer that may not return. -/
def Sys (α : Type) : Type := World → Outcome α

/-- Sequencing; a run that did not return skips what follows. -/
def Sys.bind {α β : Type} (m : Sys α) (f : α → Sys β) : Sys β := fun w =>
  match m w with
  | .ret a w1 => f a w1
  | .exited w1 => .exited w1
  | .halted w1 => .halted w1
  | .faulted w1 => .faulted w1

instance : Monad Sys where
  pure a := fun w => .ret a w
  bind := Sys.bind

/-- The subsystems the layer calls and the constants it takes from headers that
are not part of the layer. Each answer may depend on the whole world at the time
of the call. `load_success` is the child's `status_load_success` flag as read
after `sema_down` on its `init_sema`; `file_read` is the data delivered;
`malloc` tells whether the allocator hands out a block (`true`) or `NULL`. -/
structure Kernel where
  PHYS_BASE : Nat
  malloc : World → Bool
  process_execute : World → Nat → Int × List child
  load_success : World → child → Bool
  process_wait : World → Int → Int
  filesys_create : World → Nat → Nat → Bool
  filesys_remove : World → Nat → Bool
  filesys_open : World → Nat → Option Nat
  file_length : World → Nat → Int
  file_read : World → Nat → Nat → Nat → List Nat
  file_write : World → Nat → Nat → Nat → Int
  file_tell : World → Nat → Nat
  input_getc : World → Nat

/-! ## Machine arithmetic -/

/-- Address `p + n` in 32-bit pointer arithmetic. -/
def ptr_add (p n : Nat) : Nat := (p + n) % 4294967296

/-- Address `(int *) p + k`: `k` four-byte words from `p`, `k` a C `int`. -/
def ptr_index (p : Nat) (k : Int) : Nat := (((p : Int) + 4 * k) % 4294967296).toNat

/-- A 32-bit word seen as a C `int`. -/
def to_int (v : Nat) : Int :=
  if v % 4294967296 < 2147483648 then ((v % 4294967296 : Nat) : Int)
  else ((v % 4294967296 : Nat) : Int) - 4294967296

/-- A C `int` stored into a 32-bit slot. -/
def to_u32 (i : Int) : Nat := (i % 4294967296).toNat

/-- The statement `a++` on an `int`, as the 32-bit machine computes it. -/
def int_incr (a : Int) : Int := to_int (to_u32 (a + 1))

/-- The byte at address `a`. -/
def read_byte (w : World) (a : Nat) : Nat := w.mem a % 256

/-- The little-endian 32-bit word at address `a`. -/
def read_word (w : World) (a : Nat) : Nat :=
  read_byte w a + 256 * read_byte w (ptr_add a 1) + 65536 * read_byte w (ptr_add a 2)
    + 16777216 * read_byte w (ptr_add a 3)

/-! ## Constants -/

def CONSOLE_OUTPUT : Int := 1
def ERROR_STATUS : Int := -1
def KEYBOARD_INPUT : Int := 0
/-- Modelled from the spec: the value `TID_ERROR` of `threads/thread.h`, which
is not among the sources of the layer; a failed spawn yields the error status. -/
def TID_ERROR : Int := -1
def NULL : Nat := 0

/-! ## Primitive actions -/

def thread_current : Sys thread := fun w => .ret w.thr w

def get_world : Sys World := fun w => .ret w w

/-- Record a collaborator call. -/
def call (e : Event) : Sys Unit := fun w => .ret () { w with log := w.log ++ [e] }

/-- The function `thread_exit`: the process ends here. -/
def thread_exit : Sys Unit := fun w => .exited w

/-- The function `shutdown_power_off`. -/
def shutdown_power_off : Sys Unit := fun w => .halted w

def set_exit_status (status : Int) : Sys Unit := fun w =>
  .ret () { w with thr := { w.thr with exit_status := status } }

/-- The macro `is_kernel_vaddr` of `threads/vaddr.h`. -/
def is_kernel_vaddr (k : Kernel) (vaddr : Nat) : Bool := decide (k.PHYS_BASE ≤ vaddr)

def pagedir_get_page (pd : Nat → Option Nat) (uaddr : Nat) : Option Nat := pd uaddr

/-- An address that passes the three tests of `ptrValidate`: it is not null, it
is below the kernel base, and the page directory maps it. -/
def valid_addr (k : Kernel) (w : World) (a : Nat) : Prop :=
  a ≠ 0 ∧ a < k.PHYS_BASE ∧ w.thr.pagedir a ≠ none

instance (k : Kernel) (w : World) (a : Nat) : Decidable (valid_addr k w a) := by
  unfold valid_addr; infer_instance

/-! ## Process exit and the validators -/

/-- Sets the exit status of the current thread and exits the thread. -/
def exit (status : Int) : Sys Unit := do
  set_exit_status status
  thread_exit

def ptrValidate (k : Kernel) (_ptr : Nat) : Sys Unit := do
  let curr_t ← thread_current
  if _ptr = NULL then
    exit ERROR_STATUS
  if is_kernel_vaddr k _ptr then
    exit ERROR_STATUS
  if pagedir_get_page curr_t.pagedir _ptr = none then
    exit ERROR_STATUS

/-- The loop of `strValidate` with the address `_str + k` as loop variable.
The first argument bounds the number of iterations; `2 ^ 32` is never used up
(`strValidate_loop_total`). -/
def strValidate_loop (k : Kernel) : Nat → Nat → Sys Unit
  | 0, _ => pure ()
  | fuel + 1, cur => do
    let w ← get_world
    if read_byte w cur ≠ 0 then
      ptrValidate k (ptr_add cur 1)
      strValidate_loop k fuel (ptr_add cur 1)

def strValidate (k : Kernel) (_str : Nat) : Sys Unit := do
  ptrValidate k _str
  strValidate_loop k 4294967296 _str

/-- The loop of `BufferValidate`: `n` iterations are left and the index is `i`. -/
def BufferValidate_loop (k : Kernel) (buffer : Nat) : Nat → Nat → Sys Unit
  | 0, _ => pure ()
  | n + 1, i => do
    ptrValidate k (ptr_add buffer i)
    BufferValidate_loop k buffer n (i + 1)

def BufferValidate (k : Kernel) (buffer : Nat) (size : Nat) : Sys Unit :=
  BufferValidate_loop k buffer size 0

def get_kth_ptr (k : Kernel) (_ptr : Nat) (_k : Int) : Sys Nat := do
  let next_ptr := ptr_index _ptr _k
  ptrValidate k next_ptr
  ptrValidate k (ptr_index next_ptr 1)
  return next_ptr

/-! ## More primitive actions -/

/-- Call a collaborator: its answer is computed in the world of the call, and
the call is recorded. -/
def ask {α : Type} (e : Event) (answer : World → α) : Sys α := fun w =>
  .ret (answer w) { w with log := w.log ++ [e] }

/-- Read through an `int *`. -/
def load_int (p : Nat) : Sys Int := fun w => .ret (to_int (read_word w p)) w

/-- Read through an `unsigned *` or a `char **`. -/
def load_u32 (p : Nat) : Sys Nat := fun w => .ret (read_word w p) w

/-- Store one byte through a user pointer, as the layer itself does in `read`:
the byte goes to user memory when the address is valid, and otherwise the
store does not reach user memory and the run ends in a fault. -/
def store_byte (k : Kernel) (a : Nat) (v : Nat) : Sys Unit := fun w =>
  if valid_addr k w a then
    .ret () { w with mem := fun x => if x = a then v % 256 else w.mem x }
  else .faulted w

/-- One byte copied into user memory by the file system. -/
def copy_byte (a : Nat) (v : Nat) : Sys Unit := fun w =>
  .ret () { w with mem := fun x => if x = a then v % 256 else w.mem x }

/-- Store `data` at `buffer`, `buffer + 1`, ...: the copy `file_read` makes of
the bytes it delivers.  It is made inside the file system, which the layer
takes to be safe on the arguments it passes, and is taken to succeed. -/
def store_bytes (buffer : Nat) : List Nat → Nat → Sys Unit
  | [], _ => pure ()
  | v :: rest, i => do
    copy_byte (ptr_add buffer i) v
    store_bytes buffer rest (i + 1)

/-- A dereference of the pointer `malloc` returned (`ok` tells that it is not
`NULL`): a null pointer faults. -/
def deref_block (ok : Bool) : Sys Unit := fun w =>
  if ok then .ret () w else .faulted w

def get_frame : Sys intr_frame := fun w => .ret w.frame w

/-- The assignment `f->eax = v`. -/
def set_eax (v : Nat) : Sys Unit := fun w =>
  .ret () { w with frame := { w.frame with eax := v } }

def modify_thread (g : thread → thread) : Sys Unit := fun w =>
  .ret () { w with thr := g w.thr }

/-! ## Process control -/

/-- The search of `exec` through `child_list`. -/
def find_child (child_tid : Int) : List child → Option child
  | [] => none
  | c :: rest => if c.tid = child_tid then some c else find_child child_tid rest

def exec (k : Kernel) (cmd_args : Nat) : Sys Int := do
  let spawned ← ask (.process_execute cmd_args) (fun w => k.process_execute w cmd_args)
  modify_thread (fun t => { t with child_list := spawned.2 })
  let child_tid := spawned.1
  if child_tid = TID_ERROR then
    return child_tid
  else
    let current_thread ← thread_current
    match find_child child_tid current_thread.child_list with
    | none => return ERROR_STATUS
    | some child_thread =>
      call (.sema_down child_thread.tid)
      let w ← get_world
      if !(k.load_success w child_thread) then
        return ERROR_STATUS
      else
        return child_tid

def wait (k : Kernel) (tid : Int) : Sys Int :=
  ask (.process_wait tid) (fun w => k.process_wait w tid)

/-! ## The descriptor table -/

/-- The list walk of `get_from_fd`: the first entry whose handle is `fd`. -/
def get_from_fd_walk (fd : Int) : List file_descriptor → Option file_descriptor
  | [] => none
  | e :: rest => if e.fd = fd then some e else get_from_fd_walk fd rest

/-- Looks `fd` up in the open descriptors of the current thread; `none` is the
NULL result. -/
def get_from_fd (fd : Int) : Sys (Option file_descriptor) := do
  let curr_t ← thread_current
  return get_from_fd_walk fd curr_t.open_fd_list

def list_push_back (e : file_descriptor) : Sys Unit :=
  modify_thread (fun t => { t with open_fd_list := t.open_fd_list ++ [e] })

/-- Unlinks the node `get_from_fd` returned, which is the first one equal to
`e`. -/
def list_remove (e : file_descriptor) : Sys Unit :=
  modify_thread (fun t => { t with open_fd_list := t.open_fd_list.erase e })

/-! ## File operations -/

def create (k : Kernel) (filename : Nat) (initial_size : Nat) : Sys Bool := do
  call .lock_acquire
  let create_success ← ask (.filesys_create filename initial_size)
    (fun w => k.filesys_create w filename initial_size)
  call .lock_release
  return create_success

def remove (k : Kernel) (filename : Nat) : Sys Bool := do
  call .lock_acquire
  let remove_success ← ask (.filesys_remove filename) (fun w => k.filesys_remove w filename)
  call .lock_release
  return remove_success

/-- The system call `open`.  The descriptor is allocated first; the source does
not test the result of `malloc`, so a `NULL` block is dereferenced at
`fd->fd = ...` when the file has been opened, and the block is not freed when
the file has not been opened. -/
def sys_open (k : Kernel) (filename : Nat) : Sys Int := do
  let block ← ask .malloc k.malloc
  call .lock_acquire
  let file_ptr ← ask (.filesys_open filename) (fun w => k.filesys_open w filename)
  call .lock_release
  match file_ptr with
  | none => return ERROR_STATUS
  | some file =>
    let current_thread ← thread_current
    deref_block block
    let fd : file_descriptor := { fd := current_thread.next_fd, _file := file }
    modify_thread (fun t => { t with next_fd := int_incr t.next_fd })
    list_push_back fd
    return fd.fd

def filesize (k : Kernel) (fd : Int) : Sys Int := do
  let fd_struct ← get_from_fd fd
  match fd_struct with
  | none => return ERROR_STATUS
  | some e =>
    call .lock_acquire
    let size_of_file ← ask (.file_length e._file) (fun w => k.file_length w e._file)
    call .lock_release
    return size_of_file

/-- The keyboard loop of `read`: `n` iterations are left and the index is `i`. -/
def read_keyboard_loop (k : Kernel) (buffer : Nat) : Nat → Nat → Int → Sys Int
  | 0, _, bytes_read => pure bytes_read
  | n + 1, i, bytes_read => do
    let c ← ask .input_getc k.input_getc
    store_byte k (ptr_add buffer i) c
    read_keyboard_loop k buffer n (i + 1) (int_incr bytes_read)

def read (k : Kernel) (fd : Int) (buffer : Nat) (size : Nat) : Sys Int := do
  if fd = KEYBOARD_INPUT then
    read_keyboard_loop k buffer size 0 0
  else if fd = CONSOLE_OUTPUT then
    return ERROR_STATUS
  else
    let fd_struct ← get_from_fd fd
    match fd_struct with
    | none => return ERROR_STATUS
    | some e =>
      call .lock_acquire
      let data ← ask (.file_read e._file buffer size)
        (fun w => (k.file_read w e._file buffer size).take size)
      store_bytes buffer data 0
      call .lock_release
      return (data.length : Int)

def write (k : Kernel) (fd : Int) (buffer : Nat) (size : Nat) : Sys Int := do
  if fd = CONSOLE_OUTPUT then
    call (.putbuf buffer size)
    return to_int size
  else if fd = KEYBOARD_INPUT then
    return ERROR_STATUS
  else
    let fd_struct ← get_from_fd fd
    match fd_struct with
    | none => return ERROR_STATUS
    | some e =>
      call .lock_acquire
      let bytes_written ← ask (.file_write e._file buffer size)
        (fun w => k.file_write w e._file buffer size)
      call .lock_release
      return bytes_written

def seek (fd : Int) (position : Nat) : Sys Unit := do
  let fd_struct ← get_from_fd fd
  match fd_struct with
  | some e =>
    call .lock_acquire
    call (.file_seek e._file position)
    call .lock_release
  | none => pure ()

def tell (k : Kernel) (fd : Int) : Sys Nat := do
  let fd_struct ← get_from_fd fd
  match fd_struct with
  | none => return 0
  | some e =>
    call .lock_acquire
    let position ← ask (.file_tell e._file) (fun w => k.file_tell w e._file)
    call .lock_release
    return position

def close (fd : Int) : Sys Unit := do
  let fd_struct ← get_from_fd fd
  match fd_struct with
  | some e =>
    call .lock_acquire
    call (.file_close e._file)
    call .lock_release
    list_remove e
    call .free
  | none => pure ()

/-! ## The dispatcher -/

/-- Modelled from the spec: the call numbers of `syscall-nr.h`, which is not
among the sources of the layer; they follow the order of the calls given in the
specification, counted from 0. -/
def SYS_HALT : Int := 0
def SYS_EXIT : Int := 1
def SYS_EXEC : Int := 2
def SYS_WAIT : Int := 3
def SYS_CREATE : Int := 4
def SYS_REMOVE : Int := 5
def SYS_OPEN : Int := 6
def SYS_FILESIZE : Int := 7
def SYS_READ : Int := 8
def SYS_WRITE : Int := 9
def SYS_SEEK : Int := 10
def SYS_TELL : Int := 11
def SYS_CLOSE : Int := 12

/-- The value of `get_kth_ptr (esp, i)` dereferenced as an `int`. -/
def arg_int (k : Kernel) (esp : Nat) (i : Int) : Sys Int := do
  let p ← get_kth_ptr k esp i
  load_int p

/-- The value of `get_kth_ptr (esp, i)` dereferenced as a pointer or `unsigned`. -/
def arg_u32 (k : Kernel) (esp : Nat) (i : Int) : Sys Nat := do
  let p ← get_kth_ptr k esp i
  load_u32 p

def syscall_handler (k : Kernel) : Sys Unit := do
  let f ← get_frame
  ptrValidate k f.esp
  let syscall_type ← arg_int k f.esp 0
  if syscall_type = SYS_HALT then
    shutdown_power_off
  else if syscall_type = SYS_EXIT then
    let status ← arg_int k f.esp 1
    exit status
  else if syscall_type = SYS_EXEC then
    let cmd_args ← arg_u32 k f.esp 1
    strValidate k cmd_args
    let r ← exec k cmd_args
    set_eax (to_u32 r)
  else if syscall_type = SYS_WAIT then
    let tid ← arg_int k f.esp 1
    let r ← wait k tid
    set_eax (to_u32 r)
  else if syscall_type = SYS_CREATE then
    let file ← arg_u32 k f.esp 1
    strValidate k file
    let initial_size ← arg_u32 k f.esp 2
    let r ← create k file initial_size
    set_eax (if r then 1 else 0)
  else if syscall_type = SYS_REMOVE then
    let file ← arg_u32 k f.esp 1
    strValidate k file
    let r ← remove k file
    set_eax (if r then 1 else 0)
  else if syscall_type = SYS_OPEN then
    let file ← arg_u32 k f.esp 1
    strValidate k file
    let r ← sys_open k file
    set_eax (to_u32 r)
  else if syscall_type = SYS_FILESIZE then
    let fd ← arg_int k f.esp 1
    let r ← filesize k fd
    set_eax (to_u32 r)
  else if syscall_type = SYS_READ then
    let fd ← arg_int k f.esp 1
    let buffer ← arg_u32 k f.esp 2
    let size ← arg_u32 k f.esp 3
    BufferValidate k buffer size
    let r ← read k fd buffer size
    set_eax (to_u32 r)
  else if syscall_type = SYS_WRITE then
    let fd ← arg_int k f.esp 1
    let buffer ← arg_u32 k f.esp 2
    let size ← arg_u32 k f.esp 3
    BufferValidate k buffer size
    let r ← write k fd buffer size
    set_eax (to_u32 r)
  else if syscall_type = SYS_SEEK then
    let fd ← arg_int k f.esp 1
    let position ← arg_u32 k f.esp 2
    seek fd position
  else if syscall_type = SYS_TELL then
    let fd ← arg_int k f.esp 1
    let r ← tell k fd
    set_eax r
  else if syscall_type = SYS_CLOSE then
    let fd ← arg_int k f.esp 1
    close fd
  else
    pure ()

/-! ## Specification vocabulary -/

/-- The world in which `exit (ERROR_STATUS)` ends the process: the exit status
is -1 and nothing else has changed. -/
def kill (w : World) : World := { w with thr := { w.thr with exit_status := ERROR_STATUS } }

/-- A kernel with the usual base `0xc0000000` whose allocator succeeds and whose
other collaborators always fail. -/
def k0 : Kernel :=
  { PHYS_BASE := 3221225472
    malloc := fun _ => true
    process_execute := fun _ _ => (-1, [])
    load_success := fun _ _ => false
    process_wait := fun _ _ => -1
    filesys_create := fun _ _ _ => false
    filesys_remove := fun _ _ => false
    filesys_open := fun _ _ => none
    file_length := fun _ _ => 0
    file_read := fun _ _ _ _ => []
    file_write := fun _ _ _ _ => 0
    file_tell := fun _ _ => 0
    input_getc := fun _ => 0 }

/-- A process whose only mapped page is the top stack page
`0xbffff000 .. 0xbfffffff`, trapping with `esp = 0xbffffffc`; the word at `esp`
is 0 (`SYS_HALT`). -/
def w_top : World :=
  { mem := fun _ => 0
    thr := { exit_status := 0, next_fd := 2, open_fd_list := [], child_list := [],
             pagedir := fun a => if 3221221376 ≤ a ∧ a < 3221225472 then some a else none }
    frame := { esp := 3221225468, eax := 0 }
    log := [] }

/-- A zero-terminated string of length `n` at `s`: the `n` bytes at `s`, ...,
`s + n - 1` are not zero, the byte at `s + n` is zero, and each of the `n + 1`
addresses `s`, ..., `s + n` is valid. -/
def valid_string (k : Kernel) (w : World) (s n : Nat) : Prop :=
  (∀ i, i < n → read_byte w (ptr_add s i) ≠ 0) ∧ read_byte w (ptr_add s n) = 0 ∧
    ∀ i, i ≤ n → valid_addr k w (ptr_add s i)

/-- What a run of `strValidate` does with an address: `validated a` when
`ptrValidate (a)` has returned, `deref a` when the byte at `a` is read. -/
inductive Access where
  | validated (a : Nat)
  | deref (a : Nat)
deriving DecidableEq, Repr

/-- The loop of `strValidate` (as `strValidate_loop`), recording its accesses in
the order in which they are made. -/
def strValidate_loop_run (k : Kernel) : Nat → Nat → World → List Access × Outcome Unit
  | 0, _, w => ([], .ret () w)
  | fuel + 1, cur, w =>
    if read_byte w cur ≠ 0 then
      match ptrValidate k (ptr_add cur 1) w with
      | .ret _ w1 =>
        let r := strValidate_loop_run k fuel (ptr_add cur 1) w1
        (.deref cur :: .validated (ptr_add cur 1) :: r.1, r.2)
      | .exited w1 => ([.deref cur], .exited w1)
      | .halted w1 => ([.deref cur], .halted w1)
      | .faulted w1 => ([.deref cur], .faulted w1)
    else ([.deref cur], .ret () w)

/-- The function `strValidate`, recording its accesses. -/
def strValidate_run (k : Kernel) (_str : Nat) (w : World) : List Access × Outcome Unit :=
  match ptrValidate k _str w with
  | .ret _ w1 =>
    let r := strValidate_loop_run k 4294967296 _str w1
    (.validated _str :: r.1, r.2)
  | .exited w1 => ([], .exited w1)
  | .halted w1 => ([], .halted w1)
  | .faulted w1 => ([], .faulted w1)

/-- A process with one mapped page `0x08048000 .. 0x08048fff`.  The bytes at
`0x08048ff0` and `0x08048ff1` are `h` and `i`, followed by a zero byte; the last
two bytes of the page, at `0x08048ffe` and `0x08048fff`, are `a` and `b`; the
page behind is not mapped. -/
def w_str : World :=
  { mem := fun a => if a = 134516720 then 104 else if a = 134516721 then 105
                    else if a = 134516734 then 97 else if a = 134516735 then 98 else 0
    thr := { exit_status := 0, next_fd := 2, open_fd_list := [], child_list := [],
             pagedir := fun a => if 134512640 ≤ a ∧ a < 134516736 then some a else none }
    frame := { esp := 134512640, eax := 0 }
    log := [] }

/-- One call of a file operation that works on the descriptor table. -/
inductive FileOp where
  | op_open (filename : Nat)
  | op_close (fd : Int)
  | op_filesize (fd : Int)
  | op_read (fd : Int) (buffer : Nat) (size : Nat)
  | op_write (fd : Int) (buffer : Nat) (size : Nat)
  | op_seek (fd : Int) (position : Nat)
  | op_tell (fd : Int)
deriving DecidableEq, Repr

/-- The world after one file operation. -/
def run_op (k : Kernel) : FileOp → World → World
  | .op_open filename, w => (sys_open k filename w).world
  | .op_close fd, w => (close fd w).world
  | .op_filesize fd, w => (filesize k fd w).world
  | .op_read fd buffer size, w => (read k fd buffer size w).world
  | .op_write fd buffer size, w => (write k fd buffer size w).world
  | .op_seek fd position, w => (seek fd position w).world
  | .op_tell fd, w => (tell k fd w).world

/-- The world after a sequence of file operations. -/
def run_ops (k : Kernel) : List FileOp → World → World
  | [], w => w
  | op :: rest, w => run_ops k rest (run_op k op w)

/-- The handle an operation hands out: the result of an `open` that did not
return `ERROR_STATUS`. -/
def handle_of (k : Kernel) : FileOp → World → List Int
  | .op_open filename, w =>
    match sys_open k filename w with
    | .ret h _ => if h = ERROR_STATUS then [] else [h]
    | _ => []
  | _, _ => []

/-- The invariant of the descriptor table as the specification words it: the
handles in the table are pairwise distinct, and each is at least 2 and less than
the next-handle counter. -/
def fd_invariant (t : thread) : Prop :=
  t.open_fd_list.Pairwise (fun a b => a.fd ≠ b.fd) ∧
    ∀ e, e ∈ t.open_fd_list → 2 ≤ e.fd ∧ e.fd < t.next_fd

/-- The invariant of the descriptor table together with a lower bound on the
counter: the counter is at least 2. -/
def fd_table_ok (t : thread) : Prop := 2 ≤ t.next_fd ∧ fd_invariant t

/-- A kernel whose allocator succeeds and whose file system opens every file;
the file reference of the file named at `filename` is `filename + 1000`. -/
def k_fs : Kernel := { k0 with filesys_open := fun _ filename => some (filename + 1000) }

/-- A kernel whose file system opens every file and whose allocator is out of
memory. -/
def k_nomem : Kernel := { k_fs with malloc := fun _ => false }

/-- The number of `open` calls in a sequence of file operations. -/
def opens_in : List FileOp → Nat
  | [] => 0
  | .op_open _ :: rest => opens_in rest + 1
  | _ :: rest => opens_in rest

/-- The calls of a process that `n` times opens the file named at `filename`
and closes it again at once, the first handle being `c`. -/
def open_close_pairs (filename : Nat) : Nat → Nat → List FileOp
  | _, 0 => []
  | c, n + 1 => .op_open filename :: .op_close (to_int c) :: open_close_pairs filename (c + 1) n

instance (t : thread) : Decidable (fd_invariant t) := by
  unfold fd_invariant; infer_instance

/-- A process trapping with `esp = 0x08048000` on its only mapped page; the
call number at `esp` is 6 (`SYS_OPEN`) and the argument word behind it is the
null pointer. -/
def w_open_null : World :=
  { w_str with mem := fun a => if a = 134512640 then 6 else 0 }

/-- A process with two open files: handle 2 for file 1005 and handle 3 for file
1006; the counter is 4. -/
def w_tab : World :=
  { w_str with thr := { w_str.thr with
      next_fd := 4
      open_fd_list := [{ fd := 2, _file := 1005 }, { fd := 3, _file := 1006 }] } }

/-- The world after one more byte has been obtained from the keyboard and
stored at `buffer[j]`. -/
def keyboard_step (k : Kernel) (buffer j : Nat) (w : World) : World :=
  { w with
    log := w.log ++ [Event.input_getc]
    mem := fun x => if x = ptr_add buffer j then k.input_getc w % 256 else w.mem x }

/-- The bytes a call of `putbuf` hands to the console: those of user memory at
`buffer`, ..., `buffer + size - 1`. -/
def console_bytes (w : World) : Event → List Nat
  | .putbuf buffer size => (List.range size).map (fun i => read_byte w (ptr_add buffer i))
  | _ => []

/-- The world right after `process_execute (cmd_args)` has been called: the
call is recorded and the child list is the one the loader leaves. -/
def after_spawn (k : Kernel) (cmd_args : Nat) (w : World) : World :=
  { w with
    log := w.log ++ [Event.process_execute cmd_args]
    thr := { w.thr with child_list := (k.process_execute w cmd_args).2 } }

/-- The world after the wait on the load-completion signal of child `c`. -/
def after_load_wait (c : child) (w : World) : World :=
  { w with log := w.log ++ [Event.sema_down c.tid] }

/-- A kernel whose loader spawns child 7, which loads successfully. -/
def k_spawn : Kernel :=
  { k0 with
    process_execute := fun _ _ => (7, [{ tid := 7 }])
    load_success := fun _ _ => true }

/-- A file-system call. -/
def is_fs_call : Event → Bool
  | .filesys_create _ _ => true
  | .filesys_remove _ => true
  | .filesys_open _ => true
  | .file_length _ => true
  | .file_read _ _ _ => true
  | .file_write _ _ _ => true
  | .file_seek _ _ => true
  | .file_tell _ => true
  | .file_close _ => true
  | _ => false

/-- The lock discipline on the calls of one operation: the calls fall into
groups `lock_acquire`, one file-system call, `lock_release`, and calls outside
such a group are neither file-system calls nor lock calls. -/
def lock_discipline : List Event → Bool
  | [] => true
  | .lock_acquire :: e :: .lock_release :: rest => is_fs_call e && lock_discipline rest
  | e :: rest =>
    !is_fs_call e && decide (e ≠ .lock_acquire) && decide (e ≠ .lock_release) &&
      lock_discipline rest

/-- Whether the lock is held after a sequence of calls, given whether it was
held before. -/
def lock_held : Bool → List Event → Bool
  | b, [] => b
  | _, .lock_acquire :: rest => lock_held true rest
  | _, .lock_release :: rest => lock_held false rest
  | b, _ :: rest => lock_held b rest

/-- The operation `m`, started in `w`, returns, and `evs` are the calls it has
made. -/
def makes_calls {α : Type} (m : Sys α) (w : World) (evs : List Event) : Prop :=
  ∃ a w1, m w = .ret a w1 ∧ w1.log = w.log ++ evs

/-- The calls are made under the lock discipline and leave the lock free. -/
def locked_calls {α : Type} (m : Sys α) (w : World) : Prop :=
  ∃ evs, makes_calls m w evs ∧ lock_discipline evs = true ∧ lock_held false evs = false

/-- However the run of `m` from `w` ends, the calls it has made obey the lock
discipline and leave the lock free. -/
def locked_run {α : Type} (m : Sys α) (w : World) : Prop :=
  ∃ evs, (m w).world.log = w.log ++ evs ∧ lock_discipline evs = true ∧
    lock_held false evs = false

/-- A process trapping with `esp = 0xbffffffc`, the last word below the kernel
base, on its mapped stack page; the word at `esp` is 100, which is not the
number of a call. -/
def w_unknown : World :=
  { w_top with mem := fun a => if a = 3221225468 then 100 else 0 }

/-- A process trapping with `esp = 0x08048000` on its only mapped page; the word
at `esp` is 100, which is not the number of a call. -/
def w_unknown_low : World :=
  { w_str with mem := fun a => if a = 134512640 then 100 else 0 }

/-- A process in which every page below `0xc0000000` is mapped, trapping with the
unaligned stack pointer `0x08048ffd`. -/
def w_pages : World :=
  { w_top with
    thr := { w_top.thr with pagedir := fun a => if a / 4096 < 786432 then some a else none }
    frame := { esp := 134516733, eax := 0 } }

/-! # Theorems -/

/-! ## Basic facts about the monad -/

@[simp] theorem pure_run {α : Type} (a : α) (w : World) : (pure a : Sys α) w = .ret a w := rfl

@[simp] theorem bind_run {α β : Type} (m : Sys α) (f : α → Sys β) (w : World) :
    (m >>= f) w = Sys.bind m f w := rfl

theorem bind_ret {α β : Type} (m : Sys α) (f : α → Sys β) (w w1 : World) (a : α)
    (h : m w = .ret a w1) : Sys.bind m f w = f a w1 := by
  simp [Sys.bind, h]

theorem bind_exited {α β : Type} (m : Sys α) (f : α → Sys β) (w w1 : World)
    (h : m w = .exited w1) : Sys.bind m f w = .exited w1 := by
  simp [Sys.bind, h]

/-! ## The address validator -/

theorem ptrValidate_eq (k : Kernel) (a : Nat) (w : World) :
    ptrValidate k a w = if valid_addr k w a then .ret () w else .exited (kill w) := by
  unfold ptrValidate valid_addr
  by_cases h0 : a = 0
  · simp [h0, Sys.bind, thread_current, NULL, exit, set_exit_status, thread_exit, kill]
  · by_cases h1 : k.PHYS_BASE ≤ a
    · simp [h0, h1, Sys.bind, thread_current, NULL, exit, set_exit_status, thread_exit, kill,
        is_kernel_vaddr, Nat.not_lt.mpr h1]
    · by_cases h2 : w.thr.pagedir a = none
      · simp [h0, h1, h2, Sys.bind, thread_current, NULL, exit, set_exit_status, thread_exit,
          kill, is_kernel_vaddr, pagedir_get_page]
      · simp [h0, h1, h2, Sys.bind, thread_current, NULL, exit, set_exit_status, thread_exit,
          kill, is_kernel_vaddr, pagedir_get_page, Nat.lt_of_not_le h1]

theorem ptrValidate_valid (k : Kernel) (a : Nat) (w : World) (h : valid_addr k w a) :
    ptrValidate k a w = .ret () w := by
  rw [ptrValidate_eq, if_pos h]

theorem ptrValidate_invalid (k : Kernel) (a : Nat) (w : World) (h : ¬ valid_addr k w a) :
    ptrValidate k a w = .exited (kill w) := by
  rw [ptrValidate_eq, if_neg h]

theorem invalid_iff (k : Kernel) (a : Nat) (w : World) :
    ¬ valid_addr k w a ↔
      (a = NULL ∨ is_kernel_vaddr k a = true ∨ pagedir_get_page w.thr.pagedir a = none) := by
  unfold valid_addr NULL is_kernel_vaddr pagedir_get_page
  simp only [decide_eq_true_eq]
  constructor
  · intro h
    by_cases h0 : a = 0
    · exact Or.inl h0
    · by_cases h1 : k.PHYS_BASE ≤ a
      · exact Or.inr (Or.inl h1)
      · by_cases h2 : w.thr.pagedir a = none
        · exact Or.inr (Or.inr h2)
        · exact absurd ⟨h0, Nat.lt_of_not_le h1, h2⟩ h
  · rintro (h | h | h) ⟨h0, h1, h2⟩
    · exact h0 h
    · omega
    · exact h2 h

/-- C1: `ptrValidate (a)` ends the process (with exit status -1 and nothing else
changed) exactly when `a` is null, or is a kernel address, or is unmapped in
the page directory of the process; otherwise it returns and the world is
unchanged.  Whether it returns depends on `a` and the page directory only. -/
theorem ptrValidate_fails_iff (k : Kernel) (a : Nat) (w : World) :
    ((∃ w1, ptrValidate k a w = .exited w1) ↔
      (a = NULL ∨ is_kernel_vaddr k a = true ∨ pagedir_get_page w.thr.pagedir a = none)) ∧
    ((∃ w1, ptrValidate k a w = .exited w1) →
      ptrValidate k a w = .exited { w with thr := { w.thr with exit_status := -1 } }) ∧
    ((¬ ∃ w1, ptrValidate k a w = .exited w1) → ptrValidate k a w = .ret () w) ∧
    (∀ w2 : World, w2.thr.pagedir = w.thr.pagedir →
      (ptrValidate k a w2).isRet = (ptrValidate k a w).isRet) := by
  by_cases hv : valid_addr k w a
  · have hr := ptrValidate_valid k a w hv
    have hn : ¬ (a = NULL ∨ is_kernel_vaddr k a = true ∨ pagedir_get_page w.thr.pagedir a = none) :=
      fun h => (invalid_iff k a w).mpr h hv
    refine ⟨⟨?_, fun h => absurd h hn⟩, ?_, fun _ => hr, ?_⟩
    · rintro ⟨w1, h1⟩
      rw [hr] at h1
      cases h1
    · rintro ⟨w1, h1⟩
      rw [hr] at h1
      cases h1
    · intro w2 h2
      have hv2 : valid_addr k w2 a := by
        unfold valid_addr at hv ⊢
        rw [h2]
        exact hv
      rw [hr, ptrValidate_valid k a w2 hv2]
      rfl
  · have hr := ptrValidate_invalid k a w hv
    refine ⟨⟨fun _ => (invalid_iff k a w).mp hv, fun _ => ⟨_, hr⟩⟩, fun _ => hr, ?_, ?_⟩
    · intro h
      exact absurd ⟨_, hr⟩ h
    · intro w2 h2
      have hv2 : ¬ valid_addr k w2 a := by
        unfold valid_addr at hv ⊢
        rw [h2]
        exact hv
      rw [hr, ptrValidate_invalid k a w2 hv2]
      rfl

/-- The address validator at a concrete kernel address. -/
theorem ptrValidate_fails_iff_witness :
    ptrValidate k0 3221225472 w_top
      = .exited { w_top with thr := { w_top.thr with exit_status := -1 } } :=
  (ptrValidate_fails_iff k0 3221225472 w_top).2.1
    ((ptrValidate_fails_iff k0 3221225472 w_top).1.mpr (Or.inr (Or.inl (by decide))))

/-! ## The argument extractor -/

theorem get_kth_ptr_eq (k : Kernel) (p : Nat) (i : Int) (w : World) :
    get_kth_ptr k p i w =
      if valid_addr k w (ptr_index p i) ∧ valid_addr k w (ptr_index (ptr_index p i) 1)
      then .ret (ptr_index p i) w else .exited (kill w) := by
  unfold get_kth_ptr
  by_cases h1 : valid_addr k w (ptr_index p i)
  · by_cases h2 : valid_addr k w (ptr_index (ptr_index p i) 1)
    · simp [Sys.bind, ptrValidate_valid, h1, h2]
    · simp [Sys.bind, ptrValidate_valid, ptrValidate_invalid, h1, h2]
  · simp [Sys.bind, ptrValidate_invalid, h1]

/-- C4: at `esp = 0xbffffffc`, the last word below the kernel base, with the
stack page mapped, the first byte `esp` and the last byte `esp + 3` of word 0
are both valid, yet `get_kth_ptr (esp, 0)` ends the process with status -1: its
second check is made at `esp + 4`, the first byte of the next word.  A `halt`
call trapping with this stack pointer ends the process instead of halting. -/
theorem get_kth_ptr_rejects_last_word :
    ptrValidate k0 3221225468 w_top = .ret () w_top ∧
    ptrValidate k0 (3221225468 + 3) w_top = .ret () w_top ∧
    ptr_index 3221225468 0 = 3221225468 ∧
    ptr_index (ptr_index 3221225468 0) 1 = 3221225468 + 4 ∧
    get_kth_ptr k0 3221225468 0 w_top = .exited (kill w_top) ∧
    (kill w_top).thr.exit_status = -1 ∧
    to_int (read_word w_top w_top.frame.esp) = SYS_HALT ∧
    syscall_handler k0 w_top = .exited (kill w_top) := by
  refine ⟨?_, ?_, by decide, by decide, ?_, rfl, by decide, ?_⟩
  · exact ptrValidate_valid k0 _ w_top (by decide)
  · exact ptrValidate_valid k0 _ w_top (by decide)
  · rw [get_kth_ptr_eq, if_neg]
    decide
  · have hf : get_frame w_top = .ret w_top.frame w_top := rfl
    have hv : valid_addr k0 w_top w_top.frame.esp := by decide
    have ha : arg_int k0 w_top.frame.esp 0 w_top = .exited (kill w_top) := by
      show Sys.bind (get_kth_ptr k0 w_top.frame.esp 0) load_int w_top = _
      apply bind_exited
      rw [get_kth_ptr_eq, if_neg]
      decide
    unfold syscall_handler
    rw [bind_run, bind_ret _ _ _ _ _ hf, bind_run,
      bind_ret _ _ _ _ _ (ptrValidate_valid k0 _ w_top hv), bind_run]
    exact bind_exited _ _ _ _ ha

/-! ## Buffers -/

theorem BufferValidate_loop_ok (k : Kernel) (b : Nat) (w : World) :
    ∀ (n i : Nat), (∀ j, j < n → valid_addr k w (ptr_add b (i + j))) →
      BufferValidate_loop k b n i w = .ret () w := by
  intro n
  induction n with
  | zero => intro i _; rfl
  | succ n ih =>
    intro i h
    have h0 : valid_addr k w (ptr_add b i) := by simpa using h 0 (Nat.succ_pos n)
    have hrest : ∀ j, j < n → valid_addr k w (ptr_add b (i + 1 + j)) := by
      intro j hj
      have := h (j + 1) (Nat.succ_lt_succ hj)
      rwa [show i + (j + 1) = i + 1 + j by omega] at this
    show Sys.bind (ptrValidate k (ptr_add b i)) (fun _ => BufferValidate_loop k b n (i + 1)) w = _
    rw [bind_ret _ _ _ _ _ (ptrValidate_valid k _ w h0)]
    exact ih (i + 1) hrest

theorem BufferValidate_loop_bad (k : Kernel) (b : Nat) (w : World) :
    ∀ (n i : Nat), (¬ ∀ j, j < n → valid_addr k w (ptr_add b (i + j))) →
      BufferValidate_loop k b n i w = .exited (kill w) := by
  intro n
  induction n with
  | zero =>
    intro i h
    exact absurd (fun j hj => absurd hj (Nat.not_lt_zero j)) h
  | succ n ih =>
    intro i h
    show Sys.bind (ptrValidate k (ptr_add b i)) (fun _ => BufferValidate_loop k b n (i + 1)) w = _
    by_cases h0 : valid_addr k w (ptr_add b i)
    · rw [bind_ret _ _ _ _ _ (ptrValidate_valid k _ w h0)]
      apply ih (i + 1)
      intro hall
      apply h
      intro j hj
      cases j with
      | zero => simpa using h0
      | succ j =>
        have := hall j (Nat.lt_of_succ_lt_succ hj)
        rwa [show i + 1 + j = i + (j + 1) by omega] at this
    · rw [bind_exited _ _ _ _ (ptrValidate_invalid k _ w h0)]

/-- C5: `BufferValidate (b, n)` returns (leaving the world as it was) exactly
when each of the `n` addresses `b`, `b + 1`, ..., `b + n - 1` is valid, and
otherwise ends the process with exit status -1; for `n = 0` it returns for
every `b`. -/
theorem BufferValidate_returns_iff (k : Kernel) (b n : Nat) (w : World) :
    (BufferValidate k b n w = .ret () w ↔ ∀ i, i < n → valid_addr k w (ptr_add b i)) ∧
    ((¬ ∀ i, i < n → valid_addr k w (ptr_add b i)) →
      BufferValidate k b n w = .exited (kill w) ∧ (kill w).thr.exit_status = -1) ∧
    BufferValidate k b 0 w = .ret () w := by
  have hok := BufferValidate_loop_ok k b w n 0
  have hbad := BufferValidate_loop_bad k b w n 0
  simp only [Nat.zero_add] at hok hbad
  refine ⟨⟨?_, hok⟩, fun h => ⟨hbad h, rfl⟩, rfl⟩
  intro hret
  by_contra hne
  have := hbad hne
  unfold BufferValidate at hret
  rw [hret] at this
  cases this

/-- A three-byte buffer that runs into the kernel base is rejected. -/
theorem BufferValidate_returns_iff_witness :
    BufferValidate k0 3221225470 3 w_top = .exited (kill w_top) ∧
      (kill w_top).thr.exit_status = -1 :=
  (BufferValidate_returns_iff k0 3221225470 3 w_top).2.1
    (fun h => absurd (h 2 (by decide)) (by decide))

/-! ## Strings -/

theorem ptr_add_succ (cur j : Nat) : ptr_add (ptr_add cur 1) j = ptr_add cur (j + 1) := by
  unfold ptr_add
  omega

theorem ptr_add_zero (cur : Nat) (h : cur < 4294967296) : ptr_add cur 0 = cur := by
  unfold ptr_add
  omega

theorem ptr_add_one_valid (k : Kernel) (w : World) (cur : Nat) (h : cur < 4294967296)
    (hv : valid_addr k w (ptr_add cur 1)) : ptr_add cur 1 = cur + 1 ∧ cur + 1 < 4294967296 := by
  have h0 : ptr_add cur 1 ≠ 0 := hv.1
  unfold ptr_add at h0 ⊢
  omega

theorem strValidate_loop_succ (k : Kernel) (fuel cur : Nat) (w : World) :
    strValidate_loop k (fuel + 1) cur w =
      if read_byte w cur ≠ 0 then
        Sys.bind (ptrValidate k (ptr_add cur 1))
          (fun _ => strValidate_loop k fuel (ptr_add cur 1)) w
      else .ret () w := by
  by_cases h : read_byte w cur = 0
  · simp [strValidate_loop, Sys.bind, get_world, h]
  · simp [strValidate_loop, Sys.bind, get_world, h]

/-- The iteration bound of `strValidate_loop` is never reached: from an address
`cur`, any bound of at least `2 ^ 32 - cur` gives the same run. -/
theorem strValidate_loop_total (k : Kernel) (w : World) :
    ∀ (fuel fuel2 cur : Nat), cur < 4294967296 → 4294967296 - cur ≤ fuel →
      4294967296 - cur ≤ fuel2 →
      strValidate_loop k fuel cur w = strValidate_loop k fuel2 cur w := by
  intro fuel
  induction fuel with
  | zero => intro fuel2 cur h1 h2 _; omega
  | succ fuel ih =>
    intro fuel2 cur h1 h2 h3
    cases fuel2 with
    | zero => omega
    | succ fuel2 =>
      rw [strValidate_loop_succ, strValidate_loop_succ]
      by_cases hb : read_byte w cur = 0
      · simp [hb]
      · simp only [ne_eq, hb, not_false_eq_true, if_true]
        by_cases hv : valid_addr k w (ptr_add cur 1)
        · obtain ⟨e, hlt⟩ := ptr_add_one_valid k w cur h1 hv
          rw [bind_ret _ _ _ _ _ (ptrValidate_valid k _ w hv),
            bind_ret _ _ _ _ _ (ptrValidate_valid k _ w hv)]
          apply ih
          · rw [e]; exact hlt
          · rw [e]; omega
          · rw [e]; omega
        · rw [bind_exited _ _ _ _ (ptrValidate_invalid k _ w hv),
            bind_exited _ _ _ _ (ptrValidate_invalid k _ w hv)]

theorem valid_string_step (k : Kernel) (w : World) (cur : Nat) (h : cur < 4294967296)
    (hb : read_byte w cur ≠ 0) (hc : valid_addr k w cur) :
    (∃ n, valid_string k w cur n) ↔ ∃ n, valid_string k w (ptr_add cur 1) n := by
  constructor
  · rintro ⟨n, h1, h2, h3⟩
    cases n with
    | zero =>
      rw [ptr_add_zero cur h] at h2
      exact absurd h2 hb
    | succ n =>
      refine ⟨n, ?_, ?_, ?_⟩
      · intro i hi
        rw [ptr_add_succ]
        exact h1 (i + 1) (Nat.succ_lt_succ hi)
      · rw [ptr_add_succ]
        exact h2
      · intro i hi
        rw [ptr_add_succ]
        exact h3 (i + 1) (Nat.succ_le_succ hi)
  · rintro ⟨n, h1, h2, h3⟩
    refine ⟨n + 1, ?_, ?_, ?_⟩
    · intro i hi
      cases i with
      | zero => rw [ptr_add_zero cur h]; exact hb
      | succ i =>
        rw [← ptr_add_succ]
        exact h1 i (Nat.lt_of_succ_lt_succ hi)
    · rw [← ptr_add_succ]
      exact h2
    · intro i hi
      cases i with
      | zero => rw [ptr_add_zero cur h]; exact hc
      | succ i =>
        rw [← ptr_add_succ]
        exact h3 i (Nat.le_of_succ_le_succ hi)

theorem strValidate_loop_spec (k : Kernel) (w : World) :
    ∀ (fuel cur : Nat), cur < 4294967296 → 4294967296 - cur ≤ fuel → valid_addr k w cur →
      ((∃ n, valid_string k w cur n) → strValidate_loop k fuel cur w = .ret () w) ∧
      ((¬ ∃ n, valid_string k w cur n) → strValidate_loop k fuel cur w = .exited (kill w)) := by
  intro fuel
  induction fuel with
  | zero => intro cur h1 h2 _; omega
  | succ fuel ih =>
    intro cur h1 h2 hc
    rw [strValidate_loop_succ]
    by_cases hb : read_byte w cur = 0
    · have hex : ∃ n, valid_string k w cur n := by
        refine ⟨0, ?_, ?_, ?_⟩
        · intro i hi; omega
        · rw [ptr_add_zero cur h1]; exact hb
        · intro i hi
          have : i = 0 := by omega
          rw [this, ptr_add_zero cur h1]
          exact hc
      simp [hb, hex]
    · simp only [ne_eq, hb, not_false_eq_true, if_true]
      by_cases hv : valid_addr k w (ptr_add cur 1)
      · obtain ⟨e, hlt⟩ := ptr_add_one_valid k w cur h1 hv
        rw [bind_ret _ _ _ _ _ (ptrValidate_valid k _ w hv), valid_string_step k w cur h1 hb hc]
        apply ih
        · rw [e]; exact hlt
        · rw [e]; omega
        · exact hv
      · rw [bind_exited _ _ _ _ (ptrValidate_invalid k _ w hv)]
        have hno : ¬ ∃ n, valid_string k w cur n := by
          rintro ⟨n, g1, g2, g3⟩
          cases n with
          | zero =>
            rw [ptr_add_zero cur h1] at g2
            exact hb g2
          | succ n => exact hv (g3 1 (by omega))
        simp [hno]

/-- C2: for a 32-bit address `s`, `strValidate (s)` returns (leaving the world as
it was) exactly when for some `n` the bytes at `s`, ..., `s + n - 1` are not
zero, the byte at `s + n` is zero and every address `s`, ..., `s + n` is valid;
otherwise it ends the process with exit status -1.  In particular, when the
bytes at `s`, ..., `s + n - 1` are valid and not zero and the address `s + n`,
where the terminator would be, is not valid, the process is ended. -/
theorem strValidate_returns_iff (k : Kernel) (s : Nat) (w : World) (hs : s < 4294967296) :
    (strValidate k s w = .ret () w ↔ ∃ n, valid_string k w s n) ∧
    ((¬ ∃ n, valid_string k w s n) →
      strValidate k s w = .exited (kill w) ∧ (kill w).thr.exit_status = -1) ∧
    (∀ n, (∀ i, i < n → read_byte w (ptr_add s i) ≠ 0 ∧ valid_addr k w (ptr_add s i)) →
      ¬ valid_addr k w (ptr_add s n) → strValidate k s w = .exited (kill w)) := by
  have key : ((∃ n, valid_string k w s n) → strValidate k s w = .ret () w) ∧
      ((¬ ∃ n, valid_string k w s n) → strValidate k s w = .exited (kill w)) := by
    show (_ → Sys.bind (ptrValidate k s) (fun _ => strValidate_loop k 4294967296 s) w = _) ∧
      (_ → Sys.bind (ptrValidate k s) (fun _ => strValidate_loop k 4294967296 s) w = _)
    by_cases hv : valid_addr k w s
    · rw [bind_ret _ _ _ _ _ (ptrValidate_valid k _ w hv)]
      exact strValidate_loop_spec k w 4294967296 s hs (by omega) hv
    · rw [bind_exited _ _ _ _ (ptrValidate_invalid k _ w hv)]
      have hno : ¬ ∃ n, valid_string k w s n := by
        rintro ⟨n, _, _, g3⟩
        have := g3 0 (Nat.zero_le n)
        rw [ptr_add_zero s hs] at this
        exact hv this
      exact ⟨fun h => absurd h hno, fun _ => rfl⟩
  refine ⟨⟨?_, key.1⟩, fun h => ⟨key.2 h, rfl⟩, ?_⟩
  · intro hret
    by_contra hno
    have := key.2 hno
    rw [hret] at this
    cases this
  · intro n hpre hbad
    apply key.2
    rintro ⟨m, g1, g2, g3⟩
    by_cases hmn : m < n
    · exact (hpre m hmn).1 g2
    · exact hbad (g3 n (by omega))

/-- The string "ab" in the last two bytes of the only mapped page: its
terminator would lie on the unmapped page behind, and the process is ended. -/
theorem strValidate_returns_iff_witness :
    strValidate k0 134516734 w_str = .exited (kill w_str) :=
  (strValidate_returns_iff k0 134516734 w_str (by decide)).2.2 2
    (fun i hi => by
      have hi2 : i = 0 ∨ i = 1 := by omega
      rcases hi2 with h | h <;> subst h <;> decide)
    (by decide)

theorem strValidate_loop_run_snd (k : Kernel) :
    ∀ (fuel cur : Nat) (w : World),
      (strValidate_loop_run k fuel cur w).2 = strValidate_loop k fuel cur w := by
  intro fuel
  induction fuel with
  | zero => intro cur w; rfl
  | succ fuel ih =>
    intro cur w
    rw [strValidate_loop_succ]
    unfold strValidate_loop_run
    by_cases hb : read_byte w cur = 0
    · simp [hb]
    · simp only [ne_eq, hb, not_false_eq_true, if_true]
      by_cases hv : valid_addr k w (ptr_add cur 1)
      · rw [bind_ret _ _ _ _ _ (ptrValidate_valid k _ w hv), ptrValidate_valid k _ w hv]
        exact ih _ _
      · rw [bind_exited _ _ _ _ (ptrValidate_invalid k _ w hv), ptrValidate_invalid k _ w hv]

theorem strValidate_loop_run_reads (k : Kernel) :
    ∀ (fuel cur : Nat) (w : World) (pre post : List Access) (a : Nat),
      (strValidate_loop_run k fuel cur w).1 = pre ++ Access.deref a :: post →
      (pre = [] ∧ a = cur) ∨ Access.validated a ∈ pre := by
  intro fuel
  induction fuel with
  | zero =>
    intro cur w pre post a h
    simp [strValidate_loop_run] at h
  | succ fuel ih =>
    intro cur w pre post a h
    unfold strValidate_loop_run at h
    by_cases hb : read_byte w cur = 0
    · simp only [ne_eq, hb, not_true_eq_false, if_false] at h
      cases pre with
      | nil =>
        simp at h
        exact Or.inl ⟨rfl, h.1.symm⟩
      | cons x pre => simp at h
    · simp only [ne_eq, hb, not_false_eq_true, if_true] at h
      by_cases hv : valid_addr k w (ptr_add cur 1)
      · rw [ptrValidate_valid k _ w hv] at h
        cases pre with
        | nil =>
          simp at h
          exact Or.inl ⟨rfl, h.1.symm⟩
        | cons x pre =>
          cases pre with
          | nil => simp at h
          | cons y pre =>
            simp only [List.cons_append, List.cons.injEq] at h
            obtain ⟨_, hy, hrest⟩ := h
            rcases ih _ _ pre post a hrest with ⟨_, ha⟩ | hmem
            · right
              rw [ha, ← hy]
              simp
            · right
              simp [hmem]
      · rw [ptrValidate_invalid k _ w hv] at h
        cases pre with
        | nil =>
          simp at h
          exact Or.inl ⟨rfl, h.1.symm⟩
        | cons x pre => simp at h

/-- C3: in the run of `strValidate (s)` (the recorded run ends as `strValidate`
does), whenever the byte at an address `a` is read, `ptrValidate (a)` has been
called and has returned earlier in the same run. -/
theorem strValidate_reads_validated (k : Kernel) (s : Nat) (w : World) :
    (strValidate_run k s w).2 = strValidate k s w ∧
    ∀ (pre post : List Access) (a : Nat),
      (strValidate_run k s w).1 = pre ++ Access.deref a :: post →
      Access.validated a ∈ pre := by
  constructor
  · show _ = Sys.bind (ptrValidate k s) (fun _ => strValidate_loop k 4294967296 s) w
    unfold strValidate_run
    by_cases hv : valid_addr k w s
    · rw [bind_ret _ _ _ _ _ (ptrValidate_valid k _ w hv), ptrValidate_valid k _ w hv]
      exact strValidate_loop_run_snd k _ _ _
    · rw [bind_exited _ _ _ _ (ptrValidate_invalid k _ w hv), ptrValidate_invalid k _ w hv]
  · intro pre post a h
    unfold strValidate_run at h
    by_cases hv : valid_addr k w s
    · rw [ptrValidate_valid k _ w hv] at h
      cases pre with
      | nil => simp at h
      | cons x pre =>
        simp only [List.cons_append, List.cons.injEq] at h
        obtain ⟨hx, hrest⟩ := h
        rcases strValidate_loop_run_reads k _ _ _ pre post a hrest with ⟨_, ha⟩ | hmem
        · rw [ha, ← hx]
          simp
        · simp [hmem]
    · rw [ptrValidate_invalid k _ w hv] at h
      simp at h

/-- The run on the string "hi": the read of the terminator at `0x08048ff2` comes
after the validation of that address. -/
theorem strValidate_reads_validated_witness :
    Access.validated 134516722 ∈
      [Access.validated 134516720, Access.deref 134516720, Access.validated 134516721,
        Access.deref 134516721, Access.validated 134516722] :=
  (strValidate_reads_validated k0 134516720 w_str).2
    [Access.validated 134516720, Access.deref 134516720, Access.validated 134516721,
      Access.deref 134516721, Access.validated 134516722] [] 134516722 (by decide)

/-! ## The descriptor table -/

theorem int_incr_eq (c : Int) (hlo : -2147483648 ≤ c) (hhi : c < 2147483647) :
    int_incr c = c + 1 := by
  unfold int_incr to_int to_u32
  split_ifs <;> omega

theorem sys_open_eq (k : Kernel) (filename : Nat) (w : World) :
    sys_open k filename w =
      match k.filesys_open { w with log := w.log ++ [Event.malloc, Event.lock_acquire] }
          filename with
      | none => .ret ERROR_STATUS
          { w with log := w.log ++ [Event.malloc, Event.lock_acquire,
              Event.filesys_open filename, Event.lock_release] }
      | some file =>
        if k.malloc w = true then
          .ret w.thr.next_fd
            { w with
              log := w.log ++ [Event.malloc, Event.lock_acquire, Event.filesys_open filename,
                Event.lock_release]
              thr := { w.thr with
                next_fd := int_incr w.thr.next_fd
                open_fd_list :=
                  w.thr.open_fd_list ++ [{ fd := w.thr.next_fd, _file := file }] } }
        else
          .faulted { w with log := w.log ++ [Event.malloc, Event.lock_acquire,
            Event.filesys_open filename, Event.lock_release] } := by
  unfold sys_open
  cases h : k.filesys_open { w with log := w.log ++ [Event.malloc, Event.lock_acquire] }
      filename with
  | none => simp [Sys.bind, call, ask, h]
  | some file =>
    by_cases hm : k.malloc w = true
    · simp [Sys.bind, call, ask, h, hm, thread_current, modify_thread, list_push_back,
        deref_block]
    · simp [Sys.bind, call, ask, h, hm, thread_current, modify_thread, list_push_back,
        deref_block]

theorem close_eq (fd : Int) (w : World) :
    close fd w =
      match get_from_fd_walk fd w.thr.open_fd_list with
      | none => .ret () w
      | some e => .ret ()
          { w with
            log := w.log ++ [Event.lock_acquire, Event.file_close e._file, Event.lock_release,
              Event.free]
            thr := { w.thr with open_fd_list := w.thr.open_fd_list.erase e } } := by
  unfold close
  cases h : get_from_fd_walk fd w.thr.open_fd_list <;>
    simp [Sys.bind, call, get_from_fd, h, thread_current, modify_thread, list_remove]

/-- C8: when the file system does not open the file, `open` returns -1 and the
descriptor table and the next-handle counter are as they were. -/
theorem open_failure (k : Kernel) (filename : Nat) (w : World)
    (h : k.filesys_open { w with log := w.log ++ [Event.malloc, Event.lock_acquire] } filename
      = none) :
    ∃ w1, sys_open k filename w = .ret (-1) w1 ∧
      w1.thr.open_fd_list = w.thr.open_fd_list ∧ w1.thr.next_fd = w.thr.next_fd := by
  rw [sys_open_eq, h]
  exact ⟨_, rfl, rfl, rfl⟩

/-- An `open` that the file system refuses. -/
theorem open_failure_witness :
    ∃ w1, sys_open k0 5 w_top = .ret (-1) w1 ∧
      w1.thr.open_fd_list = w_top.thr.open_fd_list ∧ w1.thr.next_fd = w_top.thr.next_fd :=
  open_failure k0 5 w_top rfl

theorem valid_addr_congr (k : Kernel) (w w1 : World) (a : Nat) (h : w1.thr = w.thr) :
    valid_addr k w1 a ↔ valid_addr k w a := by
  unfold valid_addr
  rw [h]

theorem read_keyboard_loop_succ (k : Kernel) (buffer n i : Nat) (r : Int) (w : World) :
    read_keyboard_loop k buffer (n + 1) i r w =
      if valid_addr k w (ptr_add buffer i) then
        read_keyboard_loop k buffer n (i + 1) (int_incr r) (keyboard_step k buffer i w)
      else .faulted { w with log := w.log ++ [Event.input_getc] } := by
  have hv : valid_addr k { w with log := w.log ++ [Event.input_getc] } (ptr_add buffer i) ↔
      valid_addr k w (ptr_add buffer i) := valid_addr_congr k w _ _ rfl
  by_cases h : valid_addr k w (ptr_add buffer i)
  · simp [read_keyboard_loop, Sys.bind, ask, store_byte, keyboard_step, h, hv]
  · simp [read_keyboard_loop, Sys.bind, ask, store_byte, keyboard_step, h, hv]

theorem read_keyboard_loop_thr (k : Kernel) (buffer : Nat) :
    ∀ (n i : Nat) (r : Int) (w : World),
      (read_keyboard_loop k buffer n i r w).world.thr = w.thr := by
  intro n
  induction n with
  | zero => intro i r w; rfl
  | succ n ih =>
    intro i r w
    rw [read_keyboard_loop_succ]
    by_cases h : valid_addr k w (ptr_add buffer i)
    · rw [if_pos h, ih]
      rfl
    · rw [if_neg h]
      rfl

theorem store_bytes_thr (buffer : Nat) :
    ∀ (data : List Nat) (i : Nat) (w : World),
      ∃ w1, store_bytes buffer data i w = .ret () w1 ∧ w1.thr = w.thr ∧ w1.log = w.log := by
  intro data
  induction data with
  | nil => intro i w; exact ⟨w, rfl, rfl, rfl⟩
  | cons v rest ih =>
    intro i w
    obtain ⟨w1, h1, h2, h3⟩ := ih (i + 1)
      { w with mem := fun x => if x = ptr_add buffer i then v % 256 else w.mem x }
    refine ⟨w1, ?_, h2, h3⟩
    rw [← h1]
    simp [store_bytes, Sys.bind, copy_byte]

theorem filesize_thr (k : Kernel) (fd : Int) (w : World) :
    (filesize k fd w).world.thr = w.thr := by
  unfold filesize
  cases h : get_from_fd_walk fd w.thr.open_fd_list <;>
    simp [Sys.bind, call, ask, get_from_fd, h, thread_current, Outcome.world]

theorem seek_thr (fd : Int) (position : Nat) (w : World) :
    (seek fd position w).world.thr = w.thr := by
  unfold seek
  cases h : get_from_fd_walk fd w.thr.open_fd_list <;>
    simp [Sys.bind, call, get_from_fd, h, thread_current, Outcome.world]

theorem tell_thr (k : Kernel) (fd : Int) (w : World) :
    (tell k fd w).world.thr = w.thr := by
  unfold tell
  cases h : get_from_fd_walk fd w.thr.open_fd_list <;>
    simp [Sys.bind, call, ask, get_from_fd, h, thread_current, Outcome.world]

theorem write_thr (k : Kernel) (fd : Int) (buffer size : Nat) (w : World) :
    (write k fd buffer size w).world.thr = w.thr := by
  unfold write
  by_cases h1 : fd = CONSOLE_OUTPUT
  · simp [h1, Sys.bind, call, Outcome.world]
  · by_cases h2 : fd = KEYBOARD_INPUT
    · have hne : KEYBOARD_INPUT ≠ CONSOLE_OUTPUT := by decide
      subst h2
      simp [hne, Outcome.world]
    · cases h : get_from_fd_walk fd w.thr.open_fd_list <;>
        simp [h1, h2, Sys.bind, call, ask, get_from_fd, h, thread_current, Outcome.world]

theorem read_thr (k : Kernel) (fd : Int) (buffer size : Nat) (w : World) :
    (read k fd buffer size w).world.thr = w.thr := by
  unfold read
  by_cases h1 : fd = KEYBOARD_INPUT
  · simp only [h1, if_true]
    exact read_keyboard_loop_thr k buffer size 0 0 w
  · by_cases h2 : fd = CONSOLE_OUTPUT
    · have hne : CONSOLE_OUTPUT ≠ KEYBOARD_INPUT := by decide
      subst h2
      simp [hne, Outcome.world]
    · cases h : get_from_fd_walk fd w.thr.open_fd_list with
      | none => simp [h1, h2, Sys.bind, get_from_fd, h, thread_current, Outcome.world]
      | some e =>
        obtain ⟨w1, e1, e2, _⟩ := store_bytes_thr buffer
          ((k.file_read { w with log := w.log ++ [Event.lock_acquire] } e._file buffer size).take size) 0
          { w with log := w.log ++ [Event.lock_acquire, Event.file_read e._file buffer size] }
        simp [h1, h2, Sys.bind, call, ask, get_from_fd, h, thread_current, Outcome.world, e1, e2]

theorem get_from_fd_walk_some (fd : Int) (e : file_descriptor) :
    ∀ l : List file_descriptor, get_from_fd_walk fd l = some e → e ∈ l ∧ e.fd = fd := by
  intro l
  induction l with
  | nil => intro h; simp [get_from_fd_walk] at h
  | cons x rest ih =>
    intro h
    unfold get_from_fd_walk at h
    by_cases hx : x.fd = fd
    · simp only [hx, if_true, Option.some.injEq] at h
      subst h
      exact ⟨List.mem_cons_self _ _, hx⟩
    · simp only [hx, if_false] at h
      exact ⟨List.mem_cons_of_mem _ (ih h).1, (ih h).2⟩

theorem close_thr (fd : Int) (w : World) :
    (close fd w).world.thr = w.thr ∨
    ∃ e, e ∈ w.thr.open_fd_list ∧
      (close fd w).world.thr = { w.thr with open_fd_list := w.thr.open_fd_list.erase e } := by
  rw [close_eq]
  cases h : get_from_fd_walk fd w.thr.open_fd_list with
  | none => left; rfl
  | some e =>
    right
    exact ⟨e, (get_from_fd_walk_some fd e _ h).1, rfl⟩

/-- What one `open` does to the thread and which handle it hands out. -/
theorem open_step (k : Kernel) (filename : Nat) (w : World) :
    ((sys_open k filename w).world.thr = w.thr ∧ handle_of k (.op_open filename) w = []) ∨
    (∃ file, (sys_open k filename w).world.thr =
        { w.thr with
          next_fd := int_incr w.thr.next_fd
          open_fd_list := w.thr.open_fd_list ++ [{ fd := w.thr.next_fd, _file := file }] } ∧
      (handle_of k (.op_open filename) w = [w.thr.next_fd] ∨
        handle_of k (.op_open filename) w = [])) := by
  cases h : k.filesys_open { w with log := w.log ++ [Event.malloc, Event.lock_acquire] }
      filename with
  | none => left; simp [handle_of, sys_open_eq, h, Outcome.world]
  | some file =>
    by_cases hm : k.malloc w = true
    · right
      refine ⟨file, by simp [sys_open_eq, h, hm, Outcome.world], ?_⟩
      by_cases hn : w.thr.next_fd = ERROR_STATUS
      · right; simp [handle_of, sys_open_eq, h, hm, hn]
      · left; simp [handle_of, sys_open_eq, h, hm, hn]
    · left; simp [handle_of, sys_open_eq, h, hm, Outcome.world]

theorem opens_in_cons (op : FileOp) (rest : List FileOp) :
    opens_in (op :: rest) = opens_in [op] + opens_in rest := by
  cases op <;> simp only [opens_in] <;> omega

theorem run_ops_append (k : Kernel) :
    ∀ (a b : List FileOp) (w : World), run_ops k (a ++ b) w = run_ops k b (run_ops k a w) := by
  intro a
  induction a with
  | nil => intro b w; rfl
  | cons op rest ih => intro b w; exact ih b _

theorem sys_open_k_fs (filename : Nat) (w : World) :
    sys_open k_fs filename w = .ret w.thr.next_fd
      { w with
        log := w.log ++ [Event.malloc, Event.lock_acquire, Event.filesys_open filename,
          Event.lock_release]
        thr := { w.thr with
          next_fd := int_incr w.thr.next_fd
          open_fd_list :=
            w.thr.open_fd_list ++ [{ fd := w.thr.next_fd, _file := filename + 1000 }] } } := by
  rw [sys_open_eq]
  rfl

/-- One `open` followed by the `close` of its handle, in a process without open
files whose counter `c` is below `2 ^ 31 - 1`: the table is empty again and the
counter is `c + 1`. -/
theorem open_close_pair_run (filename c : Nat) (w : World)
    (hl : w.thr.open_fd_list = []) (hc : w.thr.next_fd = (c : Int)) (hlt : c < 2147483647) :
    (run_op k_fs (.op_close (to_int c)) (run_op k_fs (.op_open filename) w)).thr.open_fd_list
        = [] ∧
    (run_op k_fs (.op_close (to_int c)) (run_op k_fs (.op_open filename) w)).thr.next_fd
        = ((c + 1 : Nat) : Int) := by
  have hto : to_int c = (c : Int) := by
    unfold to_int
    split_ifs <;> omega
  have hinc : int_incr (c : Int) = ((c + 1 : Nat) : Int) := by
    rw [int_incr_eq _ (by omega) (by omega)]
    push_cast
    rfl
  simp only [run_op]
  rw [sys_open_k_fs]
  simp only [Outcome.world]
  rw [close_eq]
  simp only [hl, hc, hto, List.nil_append, get_from_fd_walk, if_true, Outcome.world,
    List.erase_cons_head, hinc]
  exact ⟨trivial, trivial⟩

theorem open_close_pairs_run (filename : Nat) :
    ∀ (n c : Nat) (w : World), w.thr.open_fd_list = [] → w.thr.next_fd = (c : Int) →
      c + n ≤ 2147483647 →
      (run_ops k_fs (open_close_pairs filename c n) w).thr.open_fd_list = [] ∧
      (run_ops k_fs (open_close_pairs filename c n) w).thr.next_fd = ((c + n : Nat) : Int) := by
  intro n
  induction n with
  | zero => intro c w hl hc _; exact ⟨hl, hc⟩
  | succ n ih =>
    intro c w hl hc hle
    obtain ⟨h1, h2⟩ := open_close_pair_run filename c w hl hc (by omega)
    have := ih (c + 1) _ h1 h2 (by omega)
    rw [show c + 1 + n = c + (n + 1) by omega] at this
    exact this

/-- A process that has opened and closed a file `2 ^ 31 - 3` times: its table is
empty and its counter is `2 ^ 31 - 1`. -/
theorem counter_reaches_max :
    (run_ops k_fs (open_close_pairs 5 2 2147483645) w_top).thr.open_fd_list = [] ∧
    (run_ops k_fs (open_close_pairs 5 2 2147483645) w_top).thr.next_fd = 2147483647 :=
  open_close_pairs_run 5 2147483645 2 w_top rfl rfl (by decide)

/-- C7, as stated, fails in the state a process reaches by opening and closing a
file `2 ^ 31 - 3` times: the counter is `c = 2 ^ 31 - 1`, `open` returns `c`, and
the counter becomes `- 2 ^ 31`, not `c + 1`.  It also fails when the allocator
returns `NULL`: the file is opened and `open` faults instead of returning. -/
theorem open_counter_wraps :
    (∃ w1, sys_open k_fs 5 (run_ops k_fs (open_close_pairs 5 2 2147483645) w_top)
        = .ret 2147483647 w1 ∧ w1.thr.next_fd = -2147483648) ∧
    (∃ w1, sys_open k_nomem 5 w_top = .faulted w1) := by
  constructor
  · have h := sys_open_k_fs 5 (run_ops k_fs (open_close_pairs 5 2 2147483645) w_top)
    rw [counter_reaches_max.2] at h
    exact ⟨_, h, by decide⟩
  · have h := sys_open_eq k_nomem 5 w_top
    exact ⟨_, h⟩

/-- C7, amended: when the allocation of the descriptor has succeeded, the
counter `c` is below `2 ^ 31 - 1` and the file system opens the file, `open`
returns `c`, the counter becomes `c + 1`, and the table becomes the old table
followed by the one new entry (handle `c`, the file the file system
returned). -/
theorem open_success (k : Kernel) (filename file : Nat) (w : World)
    (hm : k.malloc w = true)
    (hlo : -2147483648 ≤ w.thr.next_fd) (hhi : w.thr.next_fd < 2147483647)
    (h : k.filesys_open { w with log := w.log ++ [Event.malloc, Event.lock_acquire] } filename
      = some file) :
    ∃ w1, sys_open k filename w = .ret w.thr.next_fd w1 ∧
      w1.thr.next_fd = w.thr.next_fd + 1 ∧
      w1.thr.open_fd_list = w.thr.open_fd_list ++ [{ fd := w.thr.next_fd, _file := file }] := by
  rw [sys_open_eq, h]
  dsimp only
  rw [if_pos hm]
  exact ⟨_, rfl, int_incr_eq _ hlo hhi, rfl⟩

/-- The first `open` of a process returns handle 2 and makes one entry. -/
theorem open_success_witness :
    ∃ w1, sys_open k_fs 5 w_top = .ret w_top.thr.next_fd w1 ∧
      w1.thr.next_fd = w_top.thr.next_fd + 1 ∧
      w1.thr.open_fd_list
        = w_top.thr.open_fd_list ++ [{ fd := w_top.thr.next_fd, _file := 1005 }] :=
  open_success k_fs 5 1005 w_top rfl (by decide) (by decide) rfl

theorem open_next_k_fs (filename : Nat) (w : World) :
    (run_op k_fs (.op_open filename) w).thr.next_fd = int_incr w.thr.next_fd ∧
    (run_op k_fs (.op_open filename) w).thr.open_fd_list
      = w.thr.open_fd_list ++ [{ fd := w.thr.next_fd, _file := filename + 1000 }] := by
  simp only [run_op]
  rw [sys_open_k_fs]
  exact ⟨rfl, rfl⟩

theorem fd_table_ok_open (t : thread) (file : Nat) (h : fd_table_ok t)
    (hlt : t.next_fd < 2147483647) :
    fd_table_ok { t with
      next_fd := int_incr t.next_fd
      open_fd_list := t.open_fd_list ++ [{ fd := t.next_fd, _file := file }] } := by
  obtain ⟨h2, hp, hb⟩ := h
  have hinc : int_incr t.next_fd = t.next_fd + 1 := int_incr_eq _ (by omega) hlt
  refine ⟨?_, ?_, ?_⟩
  · show 2 ≤ int_incr t.next_fd
    omega
  · show (t.open_fd_list ++ [({ fd := t.next_fd, _file := file } : file_descriptor)]).Pairwise _
    rw [List.pairwise_append]
    refine ⟨hp, List.pairwise_singleton _ _, ?_⟩
    intro a ha b hb2
    rw [List.mem_singleton] at hb2
    subst hb2
    exact ne_of_lt (hb a ha).2
  · intro e he
    have he2 : e ∈ t.open_fd_list ++ [({ fd := t.next_fd, _file := file } : file_descriptor)] := he
    rw [List.mem_append, List.mem_singleton] at he2
    show 2 ≤ e.fd ∧ e.fd < int_incr t.next_fd
    rcases he2 with he2 | he2
    · have := hb e he2
      omega
    · subst he2
      exact ⟨h2, by show t.next_fd < int_incr t.next_fd; omega⟩

theorem fd_table_ok_erase (t : thread) (e : file_descriptor) (h : fd_table_ok t) :
    fd_table_ok { t with open_fd_list := t.open_fd_list.erase e } := by
  obtain ⟨h2, hp, hb⟩ := h
  refine ⟨h2, ?_, ?_⟩
  · exact hp.sublist (List.erase_sublist e t.open_fd_list)
  · intro x hx
    exact hb x (List.mem_of_mem_erase hx)

/-- One operation keeps the table in order when the counter is below
`2 ^ 31 - 1` (or the operation is not an `open`), and raises the counter by at
most one. -/
theorem fd_table_ok_step (k : Kernel) (op : FileOp) (w : World) (h : fd_table_ok w.thr)
    (hlt : w.thr.next_fd + opens_in [op] ≤ 2147483647) :
    fd_table_ok (run_op k op w).thr ∧
      (run_op k op w).thr.next_fd ≤ w.thr.next_fd + opens_in [op] := by
  cases op with
  | op_open filename =>
    have hlt2 : w.thr.next_fd < 2147483647 := by
      simp [opens_in] at hlt
      omega
    have hinc : int_incr w.thr.next_fd = w.thr.next_fd + 1 :=
      int_incr_eq _ (by have := h.1; omega) hlt2
    simp only [run_op]
    rcases open_step k filename w with ⟨h1, _⟩ | ⟨file, h1, _⟩
    · rw [h1]
      exact ⟨h, by simp [opens_in]⟩
    · rw [h1]
      refine ⟨fd_table_ok_open w.thr file h hlt2, ?_⟩
      show int_incr w.thr.next_fd ≤ _
      simp [opens_in]
      omega
  | op_close fd =>
    simp only [run_op]
    rcases close_thr fd w with h1 | ⟨e, _, h1⟩
    · rw [h1]; exact ⟨h, by simp [opens_in]⟩
    · rw [h1]; exact ⟨fd_table_ok_erase w.thr e h, by simp [opens_in]⟩
  | op_filesize fd => simpa [run_op, filesize_thr, opens_in] using h
  | op_read fd buffer size => simpa [run_op, read_thr, opens_in] using h
  | op_write fd buffer size => simpa [run_op, write_thr, opens_in] using h
  | op_seek fd position => simpa [run_op, seek_thr, opens_in] using h
  | op_tell fd => simpa [run_op, tell_thr, opens_in] using h

theorem fd_table_ok_run (k : Kernel) :
    ∀ (ops : List FileOp) (w : World), fd_table_ok w.thr →
      w.thr.next_fd + opens_in ops ≤ 2147483647 → fd_table_ok (run_ops k ops w).thr := by
  intro ops
  induction ops with
  | nil => intro w h _; exact h
  | cons op rest ih =>
    intro w h hlt
    have hcons := opens_in_cons op rest
    obtain ⟨h1, h2⟩ := fd_table_ok_step k op w h (by omega)
    exact ih _ h1 (by omega)

theorem opens_in_append (a b : List FileOp) :
    opens_in (a ++ b) = opens_in a + opens_in b := by
  induction a with
  | nil => simp [opens_in]
  | cons op rest ih =>
    rw [List.cons_append, opens_in_cons, opens_in_cons op rest, ih]
    omega

/-- C10, as stated, fails for a process that opens and closes a file
`2 ^ 31 - 3` times and then opens it once more: the invariant holds at the start
(empty table, counter 2), and at the end the table holds the handle
`2 ^ 31 - 1` while the counter is `- 2 ^ 31`, so the handle is not below the
counter. -/
theorem fd_invariant_broken_by_wrap :
    w_top.thr.open_fd_list = [] ∧ w_top.thr.next_fd = 2 ∧ fd_invariant w_top.thr ∧
    (run_ops k_fs (open_close_pairs 5 2 2147483645 ++ [.op_open 5]) w_top).thr.open_fd_list
      = [{ fd := 2147483647, _file := 1005 }] ∧
    (run_ops k_fs (open_close_pairs 5 2 2147483645 ++ [.op_open 5]) w_top).thr.next_fd
      = -2147483648 ∧
    ¬ fd_invariant
      (run_ops k_fs (open_close_pairs 5 2 2147483645 ++ [.op_open 5]) w_top).thr := by
  have hW := counter_reaches_max
  have hn := open_next_k_fs 5 (run_ops k_fs (open_close_pairs 5 2 2147483645) w_top)
  rw [hW.1, hW.2] at hn
  have hl : (run_ops k_fs (open_close_pairs 5 2 2147483645 ++ [.op_open 5]) w_top).thr.open_fd_list
      = [{ fd := 2147483647, _file := 1005 }] := by
    rw [run_ops_append]
    exact hn.2
  have hc : (run_ops k_fs (open_close_pairs 5 2 2147483645 ++ [.op_open 5]) w_top).thr.next_fd
      = -2147483648 := by
    rw [run_ops_append]
    exact hn.1
  refine ⟨rfl, rfl, by decide, hl, hc, ?_⟩
  intro hinv
  have := (hinv.2 { fd := 2147483647, _file := 1005 } (by rw [hl]; exact List.mem_cons_self _ _)).2
  rw [hc] at this
  exact absurd this (by decide)

/-- C10, amended: the invariant "the handles in the table are pairwise distinct,
and each is at least 2 and less than the counter" holds for an empty table with
counter 2, and holds before and after every operation in every run from there
in which at most `2 ^ 31 - 3` opens are made; so in every state reached in such a
run the handles are distinct and 0 and 1 are not in the table. -/
theorem fd_table_invariant (k : Kernel) :
    (∀ t : thread, t.open_fd_list = [] → t.next_fd = 2 → fd_invariant t) ∧
    (∀ (ops : List FileOp) (op : FileOp) (w : World),
      w.thr.open_fd_list = [] → w.thr.next_fd = 2 → opens_in (ops ++ [op]) ≤ 2147483645 →
      fd_invariant (run_ops k ops w).thr ∧
        fd_invariant (run_op k op (run_ops k ops w)).thr) ∧
    (∀ (ops : List FileOp) (w : World), w.thr.open_fd_list = [] → w.thr.next_fd = 2 →
      opens_in ops ≤ 2147483645 →
      fd_invariant (run_ops k ops w).thr ∧
      ∀ e, e ∈ (run_ops k ops w).thr.open_fd_list → e.fd ≠ 0 ∧ e.fd ≠ 1) := by
  have init : ∀ t : thread, t.open_fd_list = [] → t.next_fd = 2 → fd_table_ok t := by
    intro t h1 h2
    refine ⟨by omega, ?_, ?_⟩
    · rw [h1]; exact List.Pairwise.nil
    · intro e he
      rw [h1] at he
      simp at he
  have reach : ∀ (ops : List FileOp) (w : World), w.thr.open_fd_list = [] →
      w.thr.next_fd = 2 → opens_in ops ≤ 2147483645 → fd_table_ok (run_ops k ops w).thr := by
    intro ops w h1 h2 hb
    exact fd_table_ok_run k ops w (init w.thr h1 h2) (by omega)
  refine ⟨fun t h1 h2 => (init t h1 h2).2, ?_, ?_⟩
  · intro ops op w h1 h2 hb
    have hb2 := opens_in_append ops [op]
    refine ⟨(reach ops w h1 h2 (by omega)).2, ?_⟩
    have := reach (ops ++ [op]) w h1 h2 hb
    rw [run_ops_append] at this
    exact this.2
  · intro ops w h1 h2 hb
    have hok := reach ops w h1 h2 hb
    refine ⟨hok.2, ?_⟩
    intro e he
    have := hok.2.2 e he
    omega

/-- A fresh process that opens two files, closes the first and reads from the
second: the invariant holds at the end and the table holds neither 0 nor 1. -/
theorem fd_table_invariant_witness :
    fd_invariant
      (run_ops k_fs [.op_open 5, .op_open 6, .op_close 2, .op_read 3 134516720 4] w_top).thr ∧
    ∀ e, e ∈ (run_ops k_fs [.op_open 5, .op_open 6, .op_close 2, .op_read 3 134516720 4]
        w_top).thr.open_fd_list → e.fd ≠ 0 ∧ e.fd ≠ 1 :=
  (fd_table_invariant k_fs).2.2 [.op_open 5, .op_open 6, .op_close 2, .op_read 3 134516720 4]
    w_top rfl rfl (by decide)

/-! ## The dispatcher -/

theorem strValidate_loop_cases (k : Kernel) (w : World) :
    ∀ (fuel cur : Nat), strValidate_loop k fuel cur w = .ret () w ∨
      strValidate_loop k fuel cur w = .exited (kill w) := by
  intro fuel
  induction fuel with
  | zero => intro cur; exact Or.inl rfl
  | succ fuel ih =>
    intro cur
    rw [strValidate_loop_succ]
    by_cases hb : read_byte w cur = 0
    · simp [hb]
    · simp only [ne_eq, hb, not_false_eq_true, if_true]
      by_cases hv : valid_addr k w (ptr_add cur 1)
      · rw [bind_ret _ _ _ _ _ (ptrValidate_valid k _ w hv)]
        exact ih _
      · rw [bind_exited _ _ _ _ (ptrValidate_invalid k _ w hv)]
        exact Or.inr rfl

theorem strValidate_cases (k : Kernel) (s : Nat) (w : World) :
    strValidate k s w = .ret () w ∨ strValidate k s w = .exited (kill w) := by
  show Sys.bind (ptrValidate k s) (fun _ => strValidate_loop k 4294967296 s) w = _ ∨
    Sys.bind (ptrValidate k s) (fun _ => strValidate_loop k 4294967296 s) w = _
  by_cases hv : valid_addr k w s
  · rw [bind_ret _ _ _ _ _ (ptrValidate_valid k _ w hv)]
    exact strValidate_loop_cases k w _ _
  · rw [bind_exited _ _ _ _ (ptrValidate_invalid k _ w hv)]
    exact Or.inr rfl

theorem BufferValidate_cases (k : Kernel) (b n : Nat) (w : World) :
    BufferValidate k b n w = .ret () w ∨ BufferValidate k b n w = .exited (kill w) := by
  by_cases h : ∀ j, j < n → valid_addr k w (ptr_add b (0 + j))
  · exact Or.inl (BufferValidate_loop_ok k b w n 0 h)
  · exact Or.inr (BufferValidate_loop_bad k b w n 0 h)

theorem arg_int_eq (k : Kernel) (esp : Nat) (i : Int) (w : World) :
    arg_int k esp i w =
      if valid_addr k w (ptr_index esp i) ∧ valid_addr k w (ptr_index (ptr_index esp i) 1)
      then .ret (to_int (read_word w (ptr_index esp i))) w else .exited (kill w) := by
  unfold arg_int
  simp only [bind_run, Sys.bind, get_kth_ptr_eq]
  split_ifs <;> rfl

theorem arg_u32_eq (k : Kernel) (esp : Nat) (i : Int) (w : World) :
    arg_u32 k esp i w =
      if valid_addr k w (ptr_index esp i) ∧ valid_addr k w (ptr_index (ptr_index esp i) 1)
      then .ret (read_word w (ptr_index esp i)) w else .exited (kill w) := by
  unfold arg_u32
  simp only [bind_run, Sys.bind, get_kth_ptr_eq]
  split_ifs <;> rfl

theorem arg_u32_ok (k : Kernel) (esp : Nat) (i : Int) (w : World)
    (h : valid_addr k w (ptr_index esp i) ∧ valid_addr k w (ptr_index (ptr_index esp i) 1)) :
    arg_u32 k esp i w = .ret (read_word w (ptr_index esp i)) w := by
  rw [arg_u32_eq, if_pos h]

theorem arg_u32_bad (k : Kernel) (esp : Nat) (i : Int) (w : World)
    (h : ¬ (valid_addr k w (ptr_index esp i) ∧ valid_addr k w (ptr_index (ptr_index esp i) 1))) :
    arg_u32 k esp i w = .exited (kill w) := by
  rw [arg_u32_eq, if_neg h]

theorem arg_int_ok (k : Kernel) (esp : Nat) (i : Int) (w : World)
    (h : valid_addr k w (ptr_index esp i) ∧ valid_addr k w (ptr_index (ptr_index esp i) 1)) :
    arg_int k esp i w = .ret (to_int (read_word w (ptr_index esp i))) w := by
  rw [arg_int_eq, if_pos h]

theorem arg_int_bad (k : Kernel) (esp : Nat) (i : Int) (w : World)
    (h : ¬ (valid_addr k w (ptr_index esp i) ∧ valid_addr k w (ptr_index (ptr_index esp i) 1))) :
    arg_int k esp i w = .exited (kill w) := by
  rw [arg_int_eq, if_neg h]

theorem handler_string_call (k : Kernel) (w : World) (rest : Nat → Sys Unit)
    (hbad : (strValidate k (read_word w (ptr_index w.frame.esp 1)) w).isRet = false) :
    Sys.bind (arg_u32 k w.frame.esp 1) (fun file => Sys.bind (strValidate k file) (fun _ => rest file)) w
      = .exited (kill w) := by
  by_cases hv : valid_addr k w (ptr_index w.frame.esp 1) ∧
      valid_addr k w (ptr_index (ptr_index w.frame.esp 1) 1)
  · rw [bind_ret _ _ _ _ _ (arg_u32_ok k _ _ w hv)]
    rcases strValidate_cases k (read_word w (ptr_index w.frame.esp 1)) w with h | h
    · rw [h] at hbad
      simp [Outcome.isRet] at hbad
    · exact bind_exited _ _ _ _ h
  · exact bind_exited _ _ _ _ (arg_u32_bad k _ _ w hv)

theorem handler_buffer_call (k : Kernel) (w : World) (rest : Int → Nat → Nat → Sys Unit)
    (hbad : (BufferValidate k (read_word w (ptr_index w.frame.esp 2))
      (read_word w (ptr_index w.frame.esp 3)) w).isRet = false) :
    Sys.bind (arg_int k w.frame.esp 1) (fun fd =>
      Sys.bind (arg_u32 k w.frame.esp 2) (fun buffer =>
        Sys.bind (arg_u32 k w.frame.esp 3) (fun size =>
          Sys.bind (BufferValidate k buffer size) (fun _ => rest fd buffer size)))) w
      = .exited (kill w) := by
  by_cases hv1 : valid_addr k w (ptr_index w.frame.esp 1) ∧
      valid_addr k w (ptr_index (ptr_index w.frame.esp 1) 1)
  · rw [bind_ret _ _ _ _ _ (arg_int_ok k _ _ w hv1)]
    by_cases hv2 : valid_addr k w (ptr_index w.frame.esp 2) ∧
        valid_addr k w (ptr_index (ptr_index w.frame.esp 2) 1)
    · rw [bind_ret _ _ _ _ _ (arg_u32_ok k _ _ w hv2)]
      by_cases hv3 : valid_addr k w (ptr_index w.frame.esp 3) ∧
          valid_addr k w (ptr_index (ptr_index w.frame.esp 3) 1)
      · rw [bind_ret _ _ _ _ _ (arg_u32_ok k _ _ w hv3)]
        rcases BufferValidate_cases k (read_word w (ptr_index w.frame.esp 2))
          (read_word w (ptr_index w.frame.esp 3)) w with h | h
        · rw [h] at hbad
          simp [Outcome.isRet] at hbad
        · exact bind_exited _ _ _ _ h
      · exact bind_exited _ _ _ _ (arg_u32_bad k _ _ w hv3)
    · exact bind_exited _ _ _ _ (arg_u32_bad k _ _ w hv2)
  · exact bind_exited _ _ _ _ (arg_int_bad k _ _ w hv1)

theorem handler_prologue (k : Kernel) (w : World) (body : Int → Sys Unit)
    (hbody : body (to_int (read_word w (ptr_index w.frame.esp 0))) w = .exited (kill w)) :
    Sys.bind get_frame (fun f => Sys.bind (ptrValidate k f.esp) (fun _ =>
      Sys.bind (arg_int k f.esp 0) body)) w = .exited (kill w) := by
  have hf : get_frame w = .ret w.frame w := rfl
  rw [bind_ret _ _ _ _ _ hf]
  by_cases hv : valid_addr k w w.frame.esp
  · rw [bind_ret _ _ _ _ _ (ptrValidate_valid k _ w hv)]
    by_cases hv0 : valid_addr k w (ptr_index w.frame.esp 0) ∧
        valid_addr k w (ptr_index (ptr_index w.frame.esp 0) 1)
    · rw [bind_ret _ _ _ _ _ (arg_int_ok k _ _ w hv0)]
      exact hbody
    · exact bind_exited _ _ _ _ (arg_int_bad k _ _ w hv0)
  · exact bind_exited _ _ _ _ (ptrValidate_invalid k _ w hv)

/-- C6: when the call is `exec`, `create`, `remove` or `open` and its string
argument does not pass `strValidate`, or the call is `read` or `write` and its
buffer does not pass `BufferValidate`, the dispatcher ends the process with
exit status -1, and nothing else has happened: no collaborator has been called,
user memory, the descriptor table, the counter and the frame (with its result
slot) are as they were. -/
theorem syscall_handler_bad_argument (k : Kernel) (w : World)
    (h : (to_int (read_word w (ptr_index w.frame.esp 0)) ∈
            [SYS_EXEC, SYS_CREATE, SYS_REMOVE, SYS_OPEN] ∧
          (strValidate k (read_word w (ptr_index w.frame.esp 1)) w).isRet = false) ∨
         (to_int (read_word w (ptr_index w.frame.esp 0)) ∈ [SYS_READ, SYS_WRITE] ∧
          (BufferValidate k (read_word w (ptr_index w.frame.esp 2))
            (read_word w (ptr_index w.frame.esp 3)) w).isRet = false)) :
    ∃ w1, syscall_handler k w = .exited w1 ∧ w1.thr.exit_status = -1 ∧
      w1.log = w.log ∧ w1.mem = w.mem ∧
      w1.thr.open_fd_list = w.thr.open_fd_list ∧ w1.thr.next_fd = w.thr.next_fd ∧
      w1.frame = w.frame := by
  refine ⟨kill w, ?_, rfl, rfl, rfl, rfl, rfl, rfl⟩
  unfold syscall_handler
  apply handler_prologue
  rcases h with ⟨hc, hbad⟩ | ⟨hc, hbad⟩
  · simp only [List.mem_cons, List.mem_singleton, List.not_mem_nil, or_false] at hc
    rcases hc with hc | hc | hc | hc <;> rw [hc] <;>
      simp only [SYS_HALT, SYS_EXIT, SYS_EXEC, SYS_WAIT, SYS_CREATE, SYS_REMOVE, SYS_OPEN,
        SYS_FILESIZE, SYS_READ, SYS_WRITE, SYS_SEEK, SYS_TELL, SYS_CLOSE] <;>
      norm_num <;>
      exact handler_string_call k w _ hbad
  · simp only [List.mem_cons, List.mem_singleton, List.not_mem_nil, or_false] at hc
    rcases hc with hc | hc <;> rw [hc] <;>
      simp only [SYS_HALT, SYS_EXIT, SYS_EXEC, SYS_WAIT, SYS_CREATE, SYS_REMOVE, SYS_OPEN,
        SYS_FILESIZE, SYS_READ, SYS_WRITE, SYS_SEEK, SYS_TELL, SYS_CLOSE] <;>
      norm_num <;>
      exact handler_buffer_call k w _ hbad

/-- The call `open (NULL)`: the process is ended and nothing else happens. -/
theorem syscall_handler_bad_argument_witness :
    ∃ w1, syscall_handler k_fs w_open_null = .exited w1 ∧ w1.thr.exit_status = -1 ∧
      w1.log = w_open_null.log ∧ w1.mem = w_open_null.mem ∧
      w1.thr.open_fd_list = w_open_null.thr.open_fd_list ∧
      w1.thr.next_fd = w_open_null.thr.next_fd ∧ w1.frame = w_open_null.frame :=
  syscall_handler_bad_argument k_fs w_open_null (Or.inl ⟨by decide, by decide⟩)

/-! ## Bad handles -/

theorem get_from_fd_walk_none (fd : Int) :
    ∀ l : List file_descriptor, (∀ e, e ∈ l → e.fd ≠ fd) → get_from_fd_walk fd l = none := by
  intro l
  induction l with
  | nil => intro _; rfl
  | cons x rest ih =>
    intro h
    unfold get_from_fd_walk
    rw [if_neg (h x (List.mem_cons_self _ _))]
    exact ih (fun e he => h e (List.mem_cons_of_mem _ he))

theorem get_from_fd_eq (fd : Int) (w : World) :
    get_from_fd fd w = .ret (get_from_fd_walk fd w.thr.open_fd_list) w := rfl

theorem filesize_bad (k : Kernel) (h : Int) (w : World)
    (hbad : ∀ e, e ∈ w.thr.open_fd_list → e.fd ≠ h) : filesize k h w = .ret (-1) w := by
  unfold filesize
  simp [Sys.bind, get_from_fd_eq, get_from_fd_walk_none h _ hbad, ERROR_STATUS]

theorem read_bad (k : Kernel) (h : Int) (buffer size : Nat) (w : World)
    (hbad : ∀ e, e ∈ w.thr.open_fd_list → e.fd ≠ h) (h0 : h ≠ 0) :
    read k h buffer size w = .ret (-1) w := by
  unfold read
  by_cases h1 : h = 1
  · simp [h1, KEYBOARD_INPUT, CONSOLE_OUTPUT, ERROR_STATUS]
  · simp [h0, h1, KEYBOARD_INPUT, CONSOLE_OUTPUT, ERROR_STATUS, Sys.bind, get_from_fd_eq,
      get_from_fd_walk_none h _ hbad]

theorem write_bad (k : Kernel) (h : Int) (buffer size : Nat) (w : World)
    (hbad : ∀ e, e ∈ w.thr.open_fd_list → e.fd ≠ h) (h1 : h ≠ 1) :
    write k h buffer size w = .ret (-1) w := by
  unfold write
  by_cases h0 : h = 0
  · simp [h0, KEYBOARD_INPUT, CONSOLE_OUTPUT, ERROR_STATUS]
  · simp [h0, h1, KEYBOARD_INPUT, CONSOLE_OUTPUT, ERROR_STATUS, Sys.bind, get_from_fd_eq,
      get_from_fd_walk_none h _ hbad]

theorem close_bad (h : Int) (w : World)
    (hbad : ∀ e, e ∈ w.thr.open_fd_list → e.fd ≠ h) : close h w = .ret () w := by
  rw [close_eq, get_from_fd_walk_none h _ hbad]

/-- C11: for a handle `h` with no entry in the table, `filesize (h)` returns -1,
`read (h, ..)` returns -1 unless `h = 0` and `write (h, ..)` returns -1 unless
`h = 1`; `read` on handle 1 and `write` on handle 0 return -1 whatever the
table holds.  In each of these cases the world is left as it was: no
collaborator is called, user memory, the table and the counter are unchanged. -/
theorem bad_handle_errors (k : Kernel) (w : World) (h : Int) (buffer size : Nat) :
    ((∀ e, e ∈ w.thr.open_fd_list → e.fd ≠ h) →
      filesize k h w = .ret (-1) w ∧
      (h ≠ 0 → read k h buffer size w = .ret (-1) w) ∧
      (h ≠ 1 → write k h buffer size w = .ret (-1) w)) ∧
    read k 1 buffer size w = .ret (-1) w ∧
    write k 0 buffer size w = .ret (-1) w := by
  refine ⟨fun hbad => ⟨filesize_bad k h w hbad, read_bad k h buffer size w hbad,
    write_bad k h buffer size w hbad⟩, ?_, ?_⟩
  · unfold read
    simp [KEYBOARD_INPUT, CONSOLE_OUTPUT, ERROR_STATUS]
  · unfold write
    simp [KEYBOARD_INPUT, CONSOLE_OUTPUT, ERROR_STATUS]

/-- Handle 7 is not in a table that holds the handles 2 and 3. -/
theorem bad_handle_errors_witness :
    filesize k_fs 7 w_tab = .ret (-1) w_tab ∧
    read k_fs 7 134516720 4 w_tab = .ret (-1) w_tab ∧
    write k_fs 7 134516720 4 w_tab = .ret (-1) w_tab :=
  ⟨((bad_handle_errors k_fs w_tab 7 134516720 4).1 (by decide)).1,
    ((bad_handle_errors k_fs w_tab 7 134516720 4).1 (by decide)).2.1 (by decide),
    ((bad_handle_errors k_fs w_tab 7 134516720 4).1 (by decide)).2.2 (by decide)⟩

/-- C12: for a handle `h` with no entry in the table (0, 1 and negative values
included), `seek (h, pos)` and `close (h)` return with the world as it was, and
`tell (h)` returns 0 with the world as it was: no file-system call is made and
the table and the counter are unchanged. -/
theorem bad_handle_noops (k : Kernel) (w : World) (h : Int) (position : Nat)
    (hbad : ∀ e, e ∈ w.thr.open_fd_list → e.fd ≠ h) :
    seek h position w = .ret () w ∧ close h w = .ret () w ∧ tell k h w = .ret 0 w := by
  refine ⟨?_, close_bad h w hbad, ?_⟩
  · unfold seek
    simp [Sys.bind, get_from_fd_eq, get_from_fd_walk_none h _ hbad]
  · unfold tell
    simp [Sys.bind, get_from_fd_eq, get_from_fd_walk_none h _ hbad]

/-- The handle -5 is not in a table that holds the handles 2 and 3. -/
theorem bad_handle_noops_witness :
    seek (-5) 10 w_tab = .ret () w_tab ∧ close (-5) w_tab = .ret () w_tab ∧
      tell k_fs (-5) w_tab = .ret 0 w_tab :=
  bad_handle_noops k_fs w_tab (-5) 10 (by decide)

/-! ## Closing a handle -/

theorem int_incr_to_int (m : Nat) : int_incr (to_int m) = to_int (m + 1) := by
  unfold int_incr to_int to_u32
  split_ifs <;> omega

theorem to_int_small (n : Nat) (h : n < 2147483648) : to_int n = (n : Int) := by
  unfold to_int
  split_ifs <;> omega

theorem to_int_large (n : Nat) (h : 2147483648 ≤ n) (h2 : n < 4294967296) :
    to_int n = (n : Int) - 4294967296 := by
  unfold to_int
  split_ifs <;> omega

/-- A buffer that `BufferValidate` lets pass consists of valid addresses. -/
theorem BufferValidate_valid (k : Kernel) (b n : Nat) (w : World)
    (h : BufferValidate k b n w = .ret () w) :
    ∀ i, i < n → valid_addr k w (ptr_add b i) := by
  by_contra hne
  have hbad := BufferValidate_loop_bad k b w n 0
  simp only [Nat.zero_add] at hbad
  have := hbad hne
  unfold BufferValidate at h
  rw [h] at this
  cases this

/-- A buffer of valid addresses is shorter than `2 ^ 32` bytes: a longer one
would contain the null address. -/
theorem valid_buffer_size (k : Kernel) (b n : Nat) (w : World)
    (h : ∀ i, i < n → valid_addr k w (ptr_add b i)) : n < 4294967296 := by
  by_contra hn
  have h0 := (h ((4294967296 - b % 4294967296) % 4294967296) (by omega)).1
  apply h0
  unfold ptr_add
  omega

/-- One more iteration of the keyboard loop is one more step at the end. -/
theorem read_keyboard_loop_snoc (k : Kernel) (buffer : Nat) :
    ∀ (n i : Nat) (r : Int) (w : World),
      (∀ j, j ≤ n → valid_addr k w (ptr_add buffer (i + j))) →
      ∃ v w1, read_keyboard_loop k buffer n i r w = .ret v w1 ∧
        read_keyboard_loop k buffer (n + 1) i r w =
          .ret (int_incr v) (keyboard_step k buffer (i + n) w1) := by
  intro n
  induction n with
  | zero =>
    intro i r w hv
    have h0 : valid_addr k w (ptr_add buffer i) := by simpa using hv 0 (Nat.le_refl 0)
    exact ⟨r, w, rfl, by rw [read_keyboard_loop_succ, if_pos h0]; rfl⟩
  | succ n ih =>
    intro i r w hv
    have h0 : valid_addr k w (ptr_add buffer i) := by simpa using hv 0 (Nat.zero_le _)
    have hrest : ∀ j, j ≤ n →
        valid_addr k (keyboard_step k buffer i w) (ptr_add buffer (i + 1 + j)) := by
      intro j hj
      apply (valid_addr_congr k w (keyboard_step k buffer i w) _ rfl).mpr
      rw [show i + 1 + j = i + (j + 1) by omega]
      exact hv (j + 1) (by omega)
    obtain ⟨v, w1, h1, h2⟩ := ih (i + 1) (int_incr r) (keyboard_step k buffer i w) hrest
    refine ⟨v, w1, ?_, ?_⟩
    · rw [read_keyboard_loop_succ, if_pos h0]; exact h1
    · rw [read_keyboard_loop_succ, if_pos h0, h2, show i + 1 + n = i + (n + 1) by omega]

theorem read_keyboard_eq (k : Kernel) (buffer n : Nat) (w : World) :
    read k 0 buffer n w = read_keyboard_loop k buffer n 0 0 w := by
  unfold read
  simp [KEYBOARD_INPUT]

/-- The run of `read (0, buffer, n)` on a buffer of valid addresses: it returns
the count `n` as an `int`, and if `buffer[n]` is valid too, the run for `n + 1`
bytes is this run followed by one more step. -/
theorem read_keyboard_run (k : Kernel) (buffer : Nat) (w : World) :
    ∀ n : Nat, (∀ i, i < n → valid_addr k w (ptr_add buffer i)) →
      ∃ w1, read k 0 buffer n w = .ret (to_int n) w1 ∧
      w1.log = w.log ++ List.replicate n Event.input_getc ∧
      w1.thr = w.thr ∧ w1.frame = w.frame ∧
      (∀ a, (∀ i, i < n → a ≠ ptr_add buffer i) → w1.mem a = w.mem a) ∧
      (valid_addr k w (ptr_add buffer n) →
        read k 0 buffer (n + 1) w = .ret (to_int (n + 1)) (keyboard_step k buffer n w1)) := by
  intro n
  induction n with
  | zero =>
    intro _
    refine ⟨w, ?_, ?_, rfl, rfl, fun _ _ => rfl, ?_⟩
    · rw [read_keyboard_eq]; rfl
    · simp
    · intro h0
      rw [read_keyboard_eq, read_keyboard_loop_succ, if_pos h0]; rfl
  | succ n ih =>
    intro hv
    obtain ⟨w1, h1, h2, h3, h4, h5, h6⟩ := ih (fun i hi => hv i (Nat.lt_succ_of_lt hi))
    have h6 := h6 (hv n (Nat.lt_succ_self n))
    refine ⟨keyboard_step k buffer n w1, h6, ?_, h3, h4, ?_, ?_⟩
    · show w1.log ++ [Event.input_getc] = _
      rw [h2, List.replicate_succ', List.append_assoc]
    · intro a ha
      show (if a = ptr_add buffer n then _ else w1.mem a) = _
      rw [if_neg (ha n (Nat.lt_succ_self n))]
      exact h5 a (fun i hi => ha i (Nat.lt_succ_of_lt hi))
    · intro hlast
      have hall : ∀ j, j ≤ n + 1 → valid_addr k w (ptr_add buffer (0 + j)) := by
        intro j hj
        rw [Nat.zero_add]
        rcases Nat.lt_or_ge j (n + 1) with hlt | hge
        · exact hv j hlt
        · have : j = n + 1 := by omega
          rw [this]; exact hlast
      obtain ⟨v, w2, g1, g2⟩ := read_keyboard_loop_snoc k buffer (n + 1) 0 0 w hall
      rw [read_keyboard_eq] at h6
      rw [h6] at g1
      cases g1
      rw [read_keyboard_eq, g2, int_incr_to_int, Nat.zero_add]

theorem ptr_add_inj (buffer i j : Nat) (hi : i < 4294967296) (hj : j < 4294967296)
    (h : ptr_add buffer i = ptr_add buffer j) : i = j := by
  unfold ptr_add at h
  omega

/-- The byte stored at `buffer[i]` stays there for the rest of the run. -/
theorem read_keyboard_mem (k : Kernel) (buffer : Nat) (w : World) (i : Nat) :
    ∀ n : Nat, i < n → (∀ j, j < n → valid_addr k w (ptr_add buffer j)) →
      (read k 0 buffer n w).world.mem (ptr_add buffer i)
        = k.input_getc (read k 0 buffer i w).world % 256 := by
  intro n
  induction n with
  | zero => intro h; omega
  | succ n ih =>
    intro hi hv
    have hn := valid_buffer_size k buffer (n + 1) w hv
    have hv2 : ∀ j, j < n → valid_addr k w (ptr_add buffer j) :=
      fun j hj => hv j (Nat.lt_succ_of_lt hj)
    obtain ⟨w1, h1, _, _, _, _, h6⟩ := read_keyboard_run k buffer w n hv2
    rw [h6 (hv n (Nat.lt_succ_self n))]
    show (if ptr_add buffer i = ptr_add buffer n then _ else w1.mem (ptr_add buffer i)) = _
    by_cases hin : i = n
    · subst hin
      rw [if_pos rfl, h1]
      rfl
    · have hne : ptr_add buffer i ≠ ptr_add buffer n :=
        fun h => hin (ptr_add_inj buffer i n (by omega) (by omega) h)
      rw [if_neg hne]
      have := ih (by omega) hv2
      rw [h1] at this
      exact this

/-- In the process with every page below the kernel base mapped, the `2 ^ 31`
bytes from `0x08048000` on are valid addresses. -/
theorem w_pages_buffer_valid :
    ∀ i, i < 2147483648 → valid_addr k0 w_pages (ptr_add 134512640 i) := by
  intro i hi
  have hp : ptr_add 134512640 i = 134512640 + i := by
    unfold ptr_add
    omega
  rw [hp]
  refine ⟨by omega, ?_, ?_⟩
  · show 134512640 + i < 3221225472
    omega
  · show (if (134512640 + i) / 4096 < 786432 then some (134512640 + i) else none) ≠ none
    rw [if_pos (by omega)]
    exact Option.some_ne_none _

/-- A keyboard `read` into the null buffer: the byte is obtained and the store
faults. -/
theorem read_keyboard_null_buffer :
    read k0 0 0 1 w_str = .faulted { w_str with log := w_str.log ++ [Event.input_getc] } := by
  rw [read_keyboard_eq, read_keyboard_loop_succ, if_neg (by decide)]

/-- C14, as stated, fails for a size of `2 ^ 31`: in a process whose pages below
the kernel base are all mapped, the buffer of `2 ^ 31` bytes at `0x08048000`
passes `BufferValidate`, and `read (0, buffer, 2147483648)` returns
-2147483648, the count as an `int`, not the size. -/
theorem read_keyboard_count_wraps :
    BufferValidate k0 134512640 2147483648 w_pages = .ret () w_pages ∧
    ∃ w1, read k0 0 134512640 2147483648 w_pages = .ret (-2147483648) w1 ∧
      w1.log = w_pages.log ++ List.replicate 2147483648 Event.input_getc := by
  refine ⟨?_, ?_⟩
  · have := BufferValidate_loop_ok k0 134512640 w_pages 2147483648 0
    simp only [Nat.zero_add] at this
    exact this w_pages_buffer_valid
  · obtain ⟨w1, h1, h2, _⟩ :=
      read_keyboard_run k0 134512640 w_pages 2147483648 w_pages_buffer_valid
    exact ⟨w1, h1, h2⟩

/-- C14, amended: for every size `n` and every buffer of `n` bytes that
`BufferValidate` lets pass (the dispatcher checks this before it calls `read`),
`read (0, buffer, n)` makes exactly `n` calls of `input_getc` and no other
call, one after the other (the run for `i + 1` bytes is the run for `i` bytes
followed by one more call), stores the byte obtained by the `i`-th call at
`buffer[i]`, leaves the rest of memory and the thread (with its descriptor
table, whatever it holds) as they were, and returns the count as an `int`:
`n` when `n < 2 ^ 31`, and `n - 2 ^ 32` otherwise. -/
theorem read_keyboard (k : Kernel) (buffer n : Nat) (w : World)
    (hbuf : BufferValidate k buffer n w = .ret () w) :
    ∃ w1, read k 0 buffer n w = .ret (to_int n) w1 ∧
      (n < 2147483648 → to_int n = (n : Int)) ∧
      (2147483648 ≤ n → to_int n = (n : Int) - 4294967296) ∧
      w1.log = w.log ++ List.replicate n Event.input_getc ∧
      w1.thr = w.thr ∧ w1.frame = w.frame ∧
      (∀ i, i < n → (read k 0 buffer (i + 1) w).world =
        keyboard_step k buffer i (read k 0 buffer i w).world) ∧
      (∀ i, i < n →
        w1.mem (ptr_add buffer i) = k.input_getc (read k 0 buffer i w).world % 256) ∧
      (∀ a, (∀ i, i < n → a ≠ ptr_add buffer i) → w1.mem a = w.mem a) := by
  have hv := BufferValidate_valid k buffer n w hbuf
  have hn := valid_buffer_size k buffer n w hv
  obtain ⟨w1, h1, h2, h3, h4, h5, _⟩ := read_keyboard_run k buffer w n hv
  refine ⟨w1, h1, to_int_small n, fun h => to_int_large n h hn, h2, h3, h4, ?_, ?_, h5⟩
  · intro i hi
    obtain ⟨w2, g1, _, _, _, _, g6⟩ :=
      read_keyboard_run k buffer w i (fun j hj => hv j (Nat.lt_trans hj hi))
    rw [g6 (hv i hi), g1]
    rfl
  · intro i hi
    have := read_keyboard_mem k buffer w i n hi hv
    rw [h1] at this
    exact this

/-- Reading three bytes from the keyboard into a valid buffer: three calls of
`input_getc` and the result 3. -/
theorem read_keyboard_witness :
    BufferValidate k0 134516720 3 w_str = .ret () w_str ∧
    ∃ w1, read k0 0 134516720 3 w_str = .ret 3 w1 ∧
      w1.log = w_str.log ++ [Event.input_getc, Event.input_getc, Event.input_getc] :=
  ⟨rfl, (read_keyboard k0 134516720 3 w_str rfl).imp (fun _ h => ⟨h.1, h.2.2.2.1⟩)⟩

/-- C15, as stated, fails for a size of `2 ^ 31`: in a process whose pages below
the kernel base are all mapped, the buffer of `2 ^ 31` bytes at `0x08048000`
passes `BufferValidate`, and `write (1, buffer, 2147483648)` returns
-2147483648, the count as an `int`, not the size. -/
theorem write_console_count_wraps :
    BufferValidate k0 134512640 2147483648 w_pages = .ret () w_pages ∧
    write k0 1 134512640 2147483648 w_pages = .ret (-2147483648)
      { w_pages with log := w_pages.log ++ [Event.putbuf 134512640 2147483648] } := by
  refine ⟨?_, ?_⟩
  · have := BufferValidate_loop_ok k0 134512640 w_pages 2147483648 0
    simp only [Nat.zero_add] at this
    exact this w_pages_buffer_valid
  · unfold write
    simp [CONSOLE_OUTPUT, Sys.bind, call]
    decide

/-- C15, amended: for every size `n` and every buffer of `n` bytes that
`BufferValidate` lets pass (the dispatcher checks this before it calls
`write`), `write (1, buffer, n)` makes one call, `putbuf (buffer, n)`, which
hands the console the whole buffer, `n` valid user addresses from `buffer` on;
it makes no other call, changes nothing else, and returns the size as an
`int`: `n` when `n < 2 ^ 31`, and `n - 2 ^ 32` otherwise. -/
theorem write_console (k : Kernel) (buffer n : Nat) (w : World)
    (hbuf : BufferValidate k buffer n w = .ret () w) :
    write k 1 buffer n w
      = .ret (to_int n) { w with log := w.log ++ [Event.putbuf buffer n] } ∧
    (n < 2147483648 → to_int n = (n : Int)) ∧
    (2147483648 ≤ n → to_int n = (n : Int) - 4294967296) ∧
    (∀ i, i < n → valid_addr k w (ptr_add buffer i)) := by
  have hv := BufferValidate_valid k buffer n w hbuf
  have hn := valid_buffer_size k buffer n w hv
  refine ⟨?_, to_int_small n, fun h => to_int_large n h hn, hv⟩
  unfold write
  simp [CONSOLE_OUTPUT, Sys.bind, call]

/-- Writing the two bytes "hi" to the console: one call of `putbuf` for the two
bytes `h`, `i`, and the result 2. -/
theorem write_console_witness :
    BufferValidate k0 134516720 2 w_str = .ret () w_str ∧
    write k0 1 134516720 2 w_str
      = .ret 2 { w_str with log := w_str.log ++ [Event.putbuf 134516720 2] } ∧
    console_bytes w_str (Event.putbuf 134516720 2) = [104, 105] :=
  ⟨rfl, (write_console k0 134516720 2 w_str rfl).1, by decide⟩

/-! ## Process control -/

theorem exec_eq (k : Kernel) (cmd_args : Nat) (w : World) :
    exec k cmd_args w =
      if (k.process_execute w cmd_args).1 = TID_ERROR then
        .ret (k.process_execute w cmd_args).1 (after_spawn k cmd_args w)
      else
        match find_child (k.process_execute w cmd_args).1 (k.process_execute w cmd_args).2 with
        | none => .ret ERROR_STATUS (after_spawn k cmd_args w)
        | some c =>
          if k.load_success (after_load_wait c (after_spawn k cmd_args w)) c then
            .ret (k.process_execute w cmd_args).1 (after_load_wait c (after_spawn k cmd_args w))
          else .ret ERROR_STATUS (after_load_wait c (after_spawn k cmd_args w)) := by
  unfold exec
  by_cases h1 : (k.process_execute w cmd_args).1 = TID_ERROR
  · simp [Sys.bind, ask, modify_thread, h1, after_spawn]
  · cases h2 : find_child (k.process_execute w cmd_args).1 (k.process_execute w cmd_args).2 with
    | none => simp [Sys.bind, ask, modify_thread, h1, h2, after_spawn, thread_current]
    | some c =>
      by_cases h3 : k.load_success (after_load_wait c (after_spawn k cmd_args w)) c = true
      · simp [Sys.bind, ask, modify_thread, h1, h2, after_spawn, thread_current, call,
          get_world, after_load_wait] at h3 ⊢
        simp [h3]
      · simp [Sys.bind, ask, modify_thread, h1, h2, after_spawn, thread_current, call,
          get_world, after_load_wait] at h3 ⊢
        simp [h3]

theorem find_child_some (tid : Int) (c : child) :
    ∀ l : List child, find_child tid l = some c → c ∈ l ∧ c.tid = tid := by
  intro l
  induction l with
  | nil => intro h; simp [find_child] at h
  | cons x rest ih =>
    intro h
    unfold find_child at h
    by_cases hx : x.tid = tid
    · simp only [hx, if_true, Option.some.injEq] at h
      subst h
      exact ⟨List.mem_cons_self _ _, hx⟩
    · simp only [hx, if_false] at h
      exact ⟨List.mem_cons_of_mem _ (ih h).1, (ih h).2⟩

theorem find_child_none (tid : Int) :
    ∀ l : List child, find_child tid l = none ↔ ∀ c, c ∈ l → c.tid ≠ tid := by
  intro l
  induction l with
  | nil => simp [find_child]
  | cons x rest ih =>
    unfold find_child
    by_cases hx : x.tid = tid
    · simp [hx]
    · simp [hx, ih]

/-- C16: with `tid` the answer of the spawn request and `l` the child list it
leaves, `exec` returns `tid` as the handle of the child exactly when `tid` is
not the error value, a record with handle `tid` is in `l`, and the load flag of
that record, read after the wait on its load-completion signal, reports
success.  When the spawn fails, or when no record is found, it returns -1 and
the only call made is the spawn request (no wait); when the load fails it
returns -1 after the wait. -/
theorem exec_result (k : Kernel) (cmd_args : Nat) (w : World) :
    ((k.process_execute w cmd_args).1 = TID_ERROR →
      exec k cmd_args w = .ret (-1) (after_spawn k cmd_args w)) ∧
    ((k.process_execute w cmd_args).1 ≠ TID_ERROR →
      (∀ c, c ∈ (k.process_execute w cmd_args).2 → c.tid ≠ (k.process_execute w cmd_args).1) →
      exec k cmd_args w = .ret (-1) (after_spawn k cmd_args w)) ∧
    (after_spawn k cmd_args w).log = w.log ++ [Event.process_execute cmd_args] ∧
    (∀ c, (k.process_execute w cmd_args).1 ≠ TID_ERROR →
      find_child (k.process_execute w cmd_args).1 (k.process_execute w cmd_args).2 = some c →
      (c ∈ (k.process_execute w cmd_args).2 ∧ c.tid = (k.process_execute w cmd_args).1) ∧
      (k.load_success (after_load_wait c (after_spawn k cmd_args w)) c = false →
        exec k cmd_args w = .ret (-1) (after_load_wait c (after_spawn k cmd_args w))) ∧
      (k.load_success (after_load_wait c (after_spawn k cmd_args w)) c = true →
        exec k cmd_args w = .ret (k.process_execute w cmd_args).1
          (after_load_wait c (after_spawn k cmd_args w)))) ∧
    (((∃ w1, exec k cmd_args w = .ret (k.process_execute w cmd_args).1 w1) ∧
        (k.process_execute w cmd_args).1 ≠ -1) ↔
      ((k.process_execute w cmd_args).1 ≠ TID_ERROR ∧
        ∃ c, c ∈ (k.process_execute w cmd_args).2 ∧
          c.tid = (k.process_execute w cmd_args).1 ∧
          k.load_success (after_load_wait c (after_spawn k cmd_args w)) c = true)) := by
  refine ⟨?_, ?_, rfl, ?_, ?_⟩
  · intro h
    rw [exec_eq, if_pos h, h]
    rfl
  · intro h hno
    rw [exec_eq, if_neg h, (find_child_none _ _).mpr hno]
    rfl
  · intro c h hc
    refine ⟨find_child_some _ c _ hc, ?_, ?_⟩
    · intro hl
      rw [exec_eq, if_neg h, hc]
      simp [hl, ERROR_STATUS]
    · intro hl
      rw [exec_eq, if_neg h, hc]
      simp [hl]
  · constructor
    · rintro ⟨⟨w1, hw1⟩, hne⟩
      have h : (k.process_execute w cmd_args).1 ≠ TID_ERROR := hne
      refine ⟨h, ?_⟩
      rw [exec_eq, if_neg h] at hw1
      cases hc : find_child (k.process_execute w cmd_args).1 (k.process_execute w cmd_args).2 with
      | none =>
        rw [hc] at hw1
        simp only [Outcome.ret.injEq] at hw1
        exact absurd hw1.1.symm hne
      | some c =>
        rw [hc] at hw1
        refine ⟨c, (find_child_some _ c _ hc).1, (find_child_some _ c _ hc).2, ?_⟩
        by_contra hl
        dsimp only at hw1
        rw [if_neg hl] at hw1
        simp only [Outcome.ret.injEq] at hw1
        exact absurd hw1.1.symm hne
    · rintro ⟨h, c, hmem, htid, hl⟩
      refine ⟨?_, h⟩
      cases hc : find_child (k.process_execute w cmd_args).1 (k.process_execute w cmd_args).2 with
      | none => exact absurd htid ((find_child_none _ _).mp hc c hmem)
      | some c2 =>
        have hc2 := find_child_some _ c2 _ hc
        have hcc : c2 = c := by
          cases c2; cases c
          simp only [child.mk.injEq]
          exact hc2.2.trans htid.symm
        subst hcc
        refine ⟨after_load_wait c2 (after_spawn k cmd_args w), ?_⟩
        rw [exec_eq, if_neg h, hc]
        dsimp only
        rw [if_pos hl]

/-- A spawn that yields child 7, which loads: `exec` returns 7 after the wait. -/
theorem exec_result_witness :
    exec k_spawn 134516720 w_str = .ret 7
      (after_load_wait { tid := 7 } (after_spawn k_spawn 134516720 w_str)) :=
  ((exec_result k_spawn 134516720 w_str).2.2.2.1 { tid := 7 } (by decide) rfl).2.2 rfl

/-! ## Unknown call numbers -/

/-- When both checks of `get_kth_ptr (esp, 0)` pass and the call number is not
one of the thirteen, the dispatcher returns and the world is as it was. -/
theorem syscall_handler_unknown_call (k : Kernel) (w : World)
    (hv : valid_addr k w w.frame.esp)
    (hv0 : valid_addr k w (ptr_index w.frame.esp 0) ∧
      valid_addr k w (ptr_index (ptr_index w.frame.esp 0) 1))
    (hc : to_int (read_word w (ptr_index w.frame.esp 0)) ∉
      [SYS_HALT, SYS_EXIT, SYS_EXEC, SYS_WAIT, SYS_CREATE, SYS_REMOVE, SYS_OPEN, SYS_FILESIZE,
        SYS_READ, SYS_WRITE, SYS_SEEK, SYS_TELL, SYS_CLOSE]) :
    syscall_handler k w = .ret () w := by
  have hf : get_frame w = .ret w.frame w := rfl
  simp only [List.mem_cons, List.mem_singleton, List.not_mem_nil, or_false, not_or] at hc
  obtain ⟨c0, c1, c2, c3, c4, c5, c6, c7, c8, c9, c10, c11, c12⟩ := hc
  unfold syscall_handler
  rw [bind_run, bind_ret _ _ _ _ _ hf, bind_run,
    bind_ret _ _ _ _ _ (ptrValidate_valid k _ w hv), bind_run,
    bind_ret _ _ _ _ _ (arg_int_ok k _ _ w hv0)]
  simp only [c0, c1, c2, c3, c4, c5, c6, c7, c8, c9, c10, c11, c12, if_false]
  rfl

/-- The dispatcher is a no-op on an unknown call number whose word is followed
by a readable byte. -/
theorem syscall_handler_unknown_call_low :
    syscall_handler k0 w_unknown_low = .ret () w_unknown_low :=
  syscall_handler_unknown_call k0 w_unknown_low (by decide) (by decide) (by decide)

/-- C17: a trap with `esp = 0xbffffffc`, the stack page mapped, and the word
100 at `esp`: the four bytes of the call-number word are valid and 100 is not
the number of a call, yet the dispatcher ends the process with status -1
instead of returning, because `get_kth_ptr (esp, 0)` also checks `esp + 4`. -/
theorem syscall_handler_unknown_call_killed :
    (∀ i, i < 4 → valid_addr k0 w_unknown (w_unknown.frame.esp + i)) ∧
    to_int (read_word w_unknown (ptr_index w_unknown.frame.esp 0)) = 100 ∧
    (100 : Int) ∉ [SYS_HALT, SYS_EXIT, SYS_EXEC, SYS_WAIT, SYS_CREATE, SYS_REMOVE, SYS_OPEN,
      SYS_FILESIZE, SYS_READ, SYS_WRITE, SYS_SEEK, SYS_TELL, SYS_CLOSE] ∧
    syscall_handler k0 w_unknown = .exited (kill w_unknown) ∧
    (kill w_unknown).thr.exit_status = -1 := by
  refine ⟨by decide, by decide, by decide, ?_, rfl⟩
  have hf : get_frame w_unknown = .ret w_unknown.frame w_unknown := rfl
  have hv : valid_addr k0 w_unknown w_unknown.frame.esp := by decide
  have ha : arg_int k0 w_unknown.frame.esp 0 w_unknown = .exited (kill w_unknown) :=
    arg_int_bad k0 _ _ w_unknown (by decide)
  unfold syscall_handler
  rw [bind_run, bind_ret _ _ _ _ _ hf, bind_run,
    bind_ret _ _ _ _ _ (ptrValidate_valid k0 _ w_unknown hv), bind_run]
  exact bind_exited _ _ _ _ ha

/-! ## The file-system lock -/

theorem create_eq (k : Kernel) (filename initial_size : Nat) (w : World) :
    create k filename initial_size w =
      .ret (k.filesys_create { w with log := w.log ++ [Event.lock_acquire] } filename initial_size)
        { w with log := w.log ++ [Event.lock_acquire, Event.filesys_create filename initial_size,
            Event.lock_release] } := by
  unfold create
  simp [Sys.bind, call, ask]

theorem remove_eq (k : Kernel) (filename : Nat) (w : World) :
    remove k filename w =
      .ret (k.filesys_remove { w with log := w.log ++ [Event.lock_acquire] } filename)
        { w with log := w.log ++ [Event.lock_acquire, Event.filesys_remove filename,
            Event.lock_release] } := by
  unfold remove
  simp [Sys.bind, call, ask]

theorem filesize_eq (k : Kernel) (fd : Int) (w : World) :
    filesize k fd w =
      match get_from_fd_walk fd w.thr.open_fd_list with
      | none => .ret ERROR_STATUS w
      | some e => .ret (k.file_length { w with log := w.log ++ [Event.lock_acquire] } e._file)
          { w with log := w.log ++ [Event.lock_acquire, Event.file_length e._file,
              Event.lock_release] } := by
  unfold filesize
  cases h : get_from_fd_walk fd w.thr.open_fd_list <;>
    simp [Sys.bind, call, ask, get_from_fd_eq, h]

theorem seek_eq (fd : Int) (position : Nat) (w : World) :
    seek fd position w =
      match get_from_fd_walk fd w.thr.open_fd_list with
      | none => .ret () w
      | some e => .ret ()
          { w with log := w.log ++ [Event.lock_acquire, Event.file_seek e._file position,
              Event.lock_release] } := by
  unfold seek
  cases h : get_from_fd_walk fd w.thr.open_fd_list <;>
    simp [Sys.bind, call, get_from_fd_eq, h]

theorem tell_eq (k : Kernel) (fd : Int) (w : World) :
    tell k fd w =
      match get_from_fd_walk fd w.thr.open_fd_list with
      | none => .ret 0 w
      | some e => .ret (k.file_tell { w with log := w.log ++ [Event.lock_acquire] } e._file)
          { w with log := w.log ++ [Event.lock_acquire, Event.file_tell e._file,
              Event.lock_release] } := by
  unfold tell
  cases h : get_from_fd_walk fd w.thr.open_fd_list <;>
    simp [Sys.bind, call, ask, get_from_fd_eq, h]

theorem write_file_eq (k : Kernel) (fd : Int) (buffer size : Nat) (w : World)
    (h0 : fd ≠ 0) (h1 : fd ≠ 1) :
    write k fd buffer size w =
      match get_from_fd_walk fd w.thr.open_fd_list with
      | none => .ret ERROR_STATUS w
      | some e =>
        .ret (k.file_write { w with log := w.log ++ [Event.lock_acquire] } e._file buffer size)
          { w with log := w.log ++ [Event.lock_acquire, Event.file_write e._file buffer size,
              Event.lock_release] } := by
  unfold write
  cases h : get_from_fd_walk fd w.thr.open_fd_list <;>
    simp [Sys.bind, call, ask, get_from_fd_eq, h, h0, h1, CONSOLE_OUTPUT, KEYBOARD_INPUT]

theorem read_file_run (k : Kernel) (fd : Int) (buffer size : Nat) (w : World)
    (e : file_descriptor) (h0 : fd ≠ 0) (h1 : fd ≠ 1)
    (he : get_from_fd_walk fd w.thr.open_fd_list = some e) :
    ∃ v w1, read k fd buffer size w = .ret v w1 ∧
      w1.log = w.log ++ [Event.lock_acquire, Event.file_read e._file buffer size,
        Event.lock_release] := by
  obtain ⟨w1, e1, _, e3⟩ := store_bytes_thr buffer
    ((k.file_read { w with log := w.log ++ [Event.lock_acquire] } e._file buffer size).take size) 0
    { w with log := w.log ++ [Event.lock_acquire, Event.file_read e._file buffer size] }
  refine ⟨(((k.file_read { w with log := w.log ++ [Event.lock_acquire] } e._file buffer
    size).take size).length : Int), { w1 with log := w1.log ++ [Event.lock_release] }, ?_, ?_⟩
  · unfold read
    simp [Sys.bind, call, ask, get_from_fd_eq, he, h0, h1, CONSOLE_OUTPUT, KEYBOARD_INPUT, e1]
  · show w1.log ++ [Event.lock_release] = _
    rw [e3]
    simp

theorem lock_discipline_getc :
    ∀ n : Nat, lock_discipline (List.replicate n Event.input_getc) = true ∧
      lock_held false (List.replicate n Event.input_getc) = false ∧
      Event.lock_acquire ∉ List.replicate n Event.input_getc := by
  intro n
  induction n with
  | zero => exact ⟨rfl, rfl, by simp⟩
  | succ n ih =>
    refine ⟨?_, ?_, ?_⟩
    · rw [List.replicate_succ]
      unfold lock_discipline
      simp [is_fs_call, ih.1]
    · rw [List.replicate_succ]
      unfold lock_held
      exact ih.2.1
    · simp [List.mem_replicate]

theorem locked_none {α : Type} (m : Sys α) (w : World) (a : α) (h : m w = .ret a w) :
    locked_calls m w :=
  ⟨[], ⟨a, w, h, (List.append_nil _).symm⟩, rfl, rfl⟩

theorem locked_one {α : Type} (m : Sys α) (w w1 : World) (a : α) (e : Event)
    (h : m w = .ret a w1)
    (hl : w1.log = w.log ++ [Event.lock_acquire, e, Event.lock_release])
    (he : is_fs_call e = true) : locked_calls m w := by
  refine ⟨[Event.lock_acquire, e, Event.lock_release], ⟨a, w1, h, hl⟩, ?_, ?_⟩
  · simp [lock_discipline, he]
  · cases e <;> simp [is_fs_call] at he <;> rfl

theorem locked_calls_run {α : Type} (m : Sys α) (w : World) (h : locked_calls m w) :
    locked_run m w := by
  obtain ⟨evs, ⟨a, w1, h1, h2⟩, h3, h4⟩ := h
  exact ⟨evs, by rw [h1]; exact h2, h3, h4⟩

/-- However the keyboard loop ends, the calls it has made are calls of
`input_getc`, at most one per iteration. -/
theorem read_keyboard_loop_log (k : Kernel) (buffer : Nat) :
    ∀ (n i : Nat) (r : Int) (w : World), ∃ m, m ≤ n ∧
      (read_keyboard_loop k buffer n i r w).world.log
        = w.log ++ List.replicate m Event.input_getc := by
  intro n
  induction n with
  | zero =>
    intro i r w
    exact ⟨0, Nat.le_refl 0, (List.append_nil _).symm⟩
  | succ n ih =>
    intro i r w
    rw [read_keyboard_loop_succ]
    by_cases h : valid_addr k w (ptr_add buffer i)
    · rw [if_pos h]
      obtain ⟨m, hm, hl⟩ := ih (i + 1) (int_incr r) (keyboard_step k buffer i w)
      refine ⟨m + 1, Nat.succ_le_succ hm, ?_⟩
      rw [hl]
      show w.log ++ [Event.input_getc] ++ _ = _
      rw [List.replicate_succ, List.append_assoc]
      rfl
    · rw [if_neg h]
      exact ⟨1, Nat.succ_le_succ (Nat.zero_le n), rfl⟩

theorem read_locked (k : Kernel) (fd : Int) (buffer size : Nat) (w : World)
    (hv : fd ≠ 0 ∨ BufferValidate k buffer size w = .ret () w) :
    locked_calls (read k fd buffer size) w := by
  by_cases h0 : fd = 0
  · subst h0
    have hbuf : BufferValidate k buffer size w = .ret () w := by
      rcases hv with hv | hv
      · exact absurd rfl hv
      · exact hv
    obtain ⟨w1, h1, h2, _⟩ :=
      read_keyboard_run k buffer w size (BufferValidate_valid k buffer size w hbuf)
    exact ⟨_, ⟨_, w1, h1, h2⟩, (lock_discipline_getc size).1, (lock_discipline_getc size).2.1⟩
  · by_cases h1 : fd = 1
    · subst h1
      refine locked_none _ w (-1) ?_
      unfold read
      simp [KEYBOARD_INPUT, CONSOLE_OUTPUT, ERROR_STATUS]
    · cases he : get_from_fd_walk fd w.thr.open_fd_list with
      | none =>
        have hbad : ∀ e, e ∈ w.thr.open_fd_list → e.fd ≠ fd := by
          intro e hmem hfd
          have hsome : ∀ l : List file_descriptor, e ∈ l → e.fd = fd →
              get_from_fd_walk fd l ≠ none := by
            intro l
            induction l with
            | nil => intro hm; exact absurd hm (List.not_mem_nil e)
            | cons x rest ih =>
              intro hm hf
              unfold get_from_fd_walk
              by_cases hx : x.fd = fd
              · simp [hx]
              · rw [if_neg hx]
                rcases List.mem_cons.mp hm with hm | hm
                · exact absurd (hm ▸ hf) hx
                · exact ih hm hf
          exact hsome _ hmem hfd he
        exact locked_none _ w (-1) (read_bad k fd buffer size w hbad h0)
      | some e =>
        obtain ⟨v, w1, g1, g2⟩ := read_file_run k fd buffer size w e h0 h1 he
        exact locked_one _ w w1 v _ g1 g2 rfl

theorem read_locked_run (k : Kernel) (fd : Int) (buffer size : Nat) (w : World) :
    locked_run (read k fd buffer size) w := by
  by_cases h0 : fd = 0
  · subst h0
    obtain ⟨m, _, hl⟩ := read_keyboard_loop_log k buffer size 0 0 w
    rw [← read_keyboard_eq] at hl
    exact ⟨_, hl, (lock_discipline_getc m).1, (lock_discipline_getc m).2.1⟩
  · exact locked_calls_run _ w (read_locked k fd buffer size w (Or.inl h0))

theorem sys_open_locked_run (k : Kernel) (filename : Nat) (w : World) :
    (sys_open k filename w).world.log = w.log ++
      [Event.malloc, Event.lock_acquire, Event.filesys_open filename, Event.lock_release] := by
  rw [sys_open_eq]
  cases k.filesys_open { w with log := w.log ++ [Event.malloc, Event.lock_acquire] }
      filename with
  | none => rfl
  | some file =>
    dsimp only
    by_cases hm : k.malloc w = true
    · rw [if_pos hm]; rfl
    · rw [if_neg hm]; rfl

theorem sys_open_locked (k : Kernel) (filename : Nat) (w : World)
    (hm : k.malloc w = true ∨
      k.filesys_open { w with log := w.log ++ [Event.malloc, Event.lock_acquire] } filename
        = none) :
    locked_calls (sys_open k filename) w := by
  have heq := sys_open_eq k filename w
  cases ho : k.filesys_open { w with log := w.log ++ [Event.malloc, Event.lock_acquire] }
      filename with
  | none =>
    rw [ho] at heq
    exact ⟨_, ⟨_, _, heq, rfl⟩, rfl, rfl⟩
  | some file =>
    have hm2 : k.malloc w = true := by
      rcases hm with hm | hm
      · exact hm
      · rw [ho] at hm
        cases hm
    rw [ho] at heq
    dsimp only at heq
    rw [if_pos hm2] at heq
    exact ⟨_, ⟨_, _, heq, rfl⟩, rfl, rfl⟩

theorem write_locked (k : Kernel) (fd : Int) (buffer size : Nat) (w : World) :
    locked_calls (write k fd buffer size) w := by
  by_cases h1 : fd = 1
  · subst h1
    refine ⟨[Event.putbuf buffer size], ⟨to_int size,
      { w with log := w.log ++ [Event.putbuf buffer size] }, ?_, rfl⟩, rfl, rfl⟩
    unfold write
    simp [CONSOLE_OUTPUT, Sys.bind, call]
  · by_cases h0 : fd = 0
    · subst h0
      refine locked_none _ w (-1) ?_
      unfold write
      simp [KEYBOARD_INPUT, CONSOLE_OUTPUT, ERROR_STATUS]
    · have heq := write_file_eq k fd buffer size w h0 h1
      cases he : get_from_fd_walk fd w.thr.open_fd_list with
      | none =>
        rw [he] at heq
        exact locked_none _ w _ heq
      | some e =>
        rw [he] at heq
        exact locked_one _ w _ _ _ heq rfl rfl

/-- C18: the calls made by each of `create`, `remove`, `open`, `filesize`,
`read`, `write`, `seek`, `tell` and `close`, for every argument and every
state, obey the lock discipline: every file-system call stands between a
`lock_acquire` right before it and a `lock_release` right after it, one call
per acquisition, and the lock is free at the end.  `create`, `remove`,
`filesize`, `write`, `seek`, `tell` and `close` always return; `open` returns
when its allocation succeeds or the file system does not open the file, and
`read` returns when the handle is not 0 or the buffer consists of valid
addresses; however `open` and `read` end, the
discipline holds for the calls they have made.  The keyboard path of `read`
and the console path of `write` never acquire the lock. -/
theorem file_operations_lock (k : Kernel) (w : World) :
    (∀ filename initial_size, locked_calls (create k filename initial_size) w) ∧
    (∀ filename, locked_calls (remove k filename) w) ∧
    (∀ filename, locked_run (sys_open k filename) w ∧
      (k.malloc w = true ∨
        k.filesys_open { w with log := w.log ++ [Event.malloc, Event.lock_acquire] } filename
          = none → locked_calls (sys_open k filename) w)) ∧
    (∀ fd, locked_calls (filesize k fd) w) ∧
    (∀ fd buffer size, locked_run (read k fd buffer size) w ∧
      (fd ≠ 0 ∨ BufferValidate k buffer size w = .ret () w →
        locked_calls (read k fd buffer size) w)) ∧
    (∀ fd buffer size, locked_calls (write k fd buffer size) w) ∧
    (∀ fd position, locked_calls (seek fd position) w) ∧
    (∀ fd, locked_calls (tell k fd) w) ∧
    (∀ fd, locked_calls (close fd) w) ∧
    (∀ buffer size, ∃ evs, (read k 0 buffer size w).world.log = w.log ++ evs ∧
      Event.lock_acquire ∉ evs) ∧
    (∀ buffer size, ∃ evs, makes_calls (write k 1 buffer size) w evs ∧
      Event.lock_acquire ∉ evs) := by
  refine ⟨?_, ?_, ?_, ?_,
    fun fd buffer size => ⟨read_locked_run k fd buffer size w, read_locked k fd buffer size w⟩,
    fun fd buffer size => write_locked k fd buffer size w, ?_, ?_, ?_, ?_, ?_⟩
  · intro filename initial_size
    exact locked_one _ w _ _ _ (create_eq k filename initial_size w) rfl rfl
  · intro filename
    exact locked_one _ w _ _ _ (remove_eq k filename w) rfl rfl
  · intro filename
    exact ⟨⟨_, sys_open_locked_run k filename w, rfl, rfl⟩, sys_open_locked k filename w⟩
  · intro fd
    have heq := filesize_eq k fd w
    cases he : get_from_fd_walk fd w.thr.open_fd_list with
    | none => rw [he] at heq; exact locked_none _ w _ heq
    | some e => rw [he] at heq; exact locked_one _ w _ _ _ heq rfl rfl
  · intro fd position
    have heq := seek_eq fd position w
    cases he : get_from_fd_walk fd w.thr.open_fd_list with
    | none => rw [he] at heq; exact locked_none _ w _ heq
    | some e => rw [he] at heq; exact locked_one _ w _ _ _ heq rfl rfl
  · intro fd
    have heq := tell_eq k fd w
    cases he : get_from_fd_walk fd w.thr.open_fd_list with
    | none => rw [he] at heq; exact locked_none _ w _ heq
    | some e => rw [he] at heq; exact locked_one _ w _ _ _ heq rfl rfl
  · intro fd
    have heq := close_eq fd w
    cases he : get_from_fd_walk fd w.thr.open_fd_list with
    | none => rw [he] at heq; exact locked_none _ w _ heq
    | some e => rw [he] at heq; exact ⟨_, ⟨_, _, heq, rfl⟩, rfl, rfl⟩
  · intro buffer size
    obtain ⟨m, _, hl⟩ := read_keyboard_loop_log k buffer size 0 0 w
    rw [← read_keyboard_eq] at hl
    exact ⟨_, hl, (lock_discipline_getc m).2.2⟩
  · intro buffer size
    refine ⟨[Event.putbuf buffer size], ⟨to_int size,
      { w with log := w.log ++ [Event.putbuf buffer size] }, ?_, rfl⟩, by simp⟩
    unfold write
    simp [CONSOLE_OUTPUT, Sys.bind, call]

/-- An `open` whose allocation succeeds and a keyboard `read` into a valid
buffer return, with the lock free. -/
theorem file_operations_lock_witness :
    locked_calls (sys_open k_fs 5) w_top ∧ locked_calls (read k0 0 134516720 3) w_str :=
  ⟨((file_operations_lock k_fs w_top).2.2.1 5).2 (Or.inl rfl),
    ((file_operations_lock k0 w_str).2.2.2.2.1 0 134516720 3).2 (Or.inr rfl)⟩

/-! ## The word behind a checked argument pointer -/

theorem ptr_index_one (q : Nat) (h : q + 4 < 4294967296) : ptr_index q 1 = q + 4 := by
  unfold ptr_index
  omega

/-- C19: when mapping is decided per 4096-byte page and the kernel base is a
page-aligned 32-bit address, a returning `get_kth_ptr (esp, k)` returns the
address `p` of the word (in 32-bit arithmetic) and leaves the world as it was,
and all four byte addresses `p`, `p + 1`, `p + 2`, `p + 3` of the word are
valid, without wrapping around. -/
theorem get_kth_ptr_word_valid (k : Kernel) (esp : Nat) (i : Int) (w w1 : World) (p : Nat)
    (hpage : ∀ a b, a / 4096 = b / 4096 → (w.thr.pagedir a = none ↔ w.thr.pagedir b = none))
    (halign : k.PHYS_BASE % 4096 = 0) (hbase : k.PHYS_BASE < 4294967296)
    (hret : get_kth_ptr k esp i w = .ret p w1) :
    p = ptr_index esp i ∧ w1 = w ∧
      ∀ j, j < 4 → ptr_add p j = p + j ∧ valid_addr k w (p + j) := by
  rw [get_kth_ptr_eq] at hret
  by_cases hv : valid_addr k w (ptr_index esp i) ∧
      valid_addr k w (ptr_index (ptr_index esp i) 1)
  · rw [if_pos hv] at hret
    simp only [Outcome.ret.injEq] at hret
    obtain ⟨hp, hw⟩ := hret
    subst hp
    refine ⟨rfl, hw.symm, ?_⟩
    obtain ⟨⟨a0, a1, a2⟩, ⟨b0, b1, b2⟩⟩ := hv
    have hnext : ptr_index (ptr_index esp i) 1 = ptr_index esp i + 4 :=
      ptr_index_one _ (by omega)
    rw [hnext] at b0 b1 b2
    intro j hj
    refine ⟨?_, ?_, ?_, ?_⟩
    · unfold ptr_add
      omega
    · omega
    · omega
    · have hpg : (ptr_index esp i + j) / 4096 = ptr_index esp i / 4096 ∨
          (ptr_index esp i + j) / 4096 = (ptr_index esp i + 4) / 4096 := by omega
      rcases hpg with hpg | hpg
      · exact fun hn => a2 ((hpage _ _ hpg).mp hn)
      · exact fun hn => b2 ((hpage _ _ hpg).mp hn)
  · rw [if_neg hv] at hret
    cases hret

/-- An unaligned argument word that straddles the page boundary at `0x08049000`:
`get_kth_ptr` returns its address `0x08048ffd`, and its four bytes are valid. -/
theorem get_kth_ptr_word_valid_witness :
    (134516733 : Nat) = ptr_index 134516733 0 ∧ w_pages = w_pages ∧
      ∀ j, j < 4 → ptr_add 134516733 j = 134516733 + j ∧
        valid_addr k0 w_pages (134516733 + j) :=
  get_kth_ptr_word_valid k0 134516733 0 w_pages w_pages 134516733
    (fun a b hab => by
      show ((if a / 4096 < 786432 then some a else none) = none ↔
        (if b / 4096 < 786432 then some b else none) = none)
      rw [hab]
      split_ifs <;> simp)
    (by decide) (by decide)
    (by rw [get_kth_ptr_eq, if_pos (by decide)]; rfl)

/-! ## Looking up a fresh handle -/

end Pintos
